import Mathlib

/-!
Verification of the crawl engine of `scripts/moodle_docs_crawler.py`.

The Python strings are modelled as `List Char` (Lean `Char` is a Unicode
scalar value, which matches CPython `str` except for lone surrogates, which
cannot appear in any input considered here).  The parts of CPython's
`urllib.parse` module that the crawler calls (`urlparse`, `urlunparse`,
`parse_qsl`, `urlencode`, `urljoin` and their helpers, as shipped with
CPython 3.12) are translated function by function, and the crawler's own
definitions are translated on top of them.

Two deliberate, clearly-scoped modelling choices, both commented again at
their definition sites:
* `str.lower` is modelled as the ASCII case mapping (CPython performs the
  full Unicode mapping; the two agree on every ASCII string, and every
  concrete string evaluated in this development is ASCII);
* `urllib.parse._checknetloc` raises when NFKC-normalising the authority
  introduces one of `/?#@:`.  On the strings `urlsplit` passes to it this
  happens exactly when the authority contains one of the nineteen code
  points whose own NFKC expansion contains such a delimiter, so the check
  is modelled as that membership test (see `nfkcBadCp` and `checknetloc`).
-/

set_option maxRecDepth 20000

deriving instance DecidableEq for Except

abbrev Str := List Char

/-- Convert a Lean string literal to the `List Char` model of Python `str`. -/
def str (s : String) : Str := s.data

namespace PyStr

/-- The characters stripped by Python `str.strip()` with no argument:
exactly the code points with the Unicode bidirectional/space property used
by `Py_UNICODE_ISSPACE`. -/
def spaceChars : List Char :=
  ['\t', '\n', '\u000B', '\u000C', '\r',
   '\u001C', '\u001D', '\u001E', '\u001F', ' ',
   '\u0085', '\u00A0', '\u1680',
   '\u2000', '\u2001', '\u2002', '\u2003', '\u2004', '\u2005', '\u2006',
   '\u2007', '\u2008', '\u2009', '\u200A',
   '\u2028', '\u2029', '\u202F', '\u205F', '\u3000']

def isSpace (c : Char) : Bool := spaceChars.contains c

/-- `urllib.parse._WHATWG_C0_CONTROL_OR_SPACE` membership: code points `0x00`–`0x20`. -/
def isC0OrSpace (c : Char) : Bool := c.toNat ≤ 0x20

def isAsciiDigit (c : Char) : Bool := '0' ≤ c && c ≤ '9'

def isAsciiAlpha (c : Char) : Bool := ('a' ≤ c && c ≤ 'z') || ('A' ≤ c && c ≤ 'Z')

def isAscii (c : Char) : Bool := c.toNat ≤ 0x7f

/-- ASCII lower-casing of one character.  CPython `str.lower` applies the
full Unicode case mapping; this model is exact on ASCII characters. -/
def lowerChar (c : Char) : Char :=
  if 'A' ≤ c && c ≤ 'Z' then Char.ofNat (c.toNat + 32) else c

/-- Model of Python `str.lower()` (ASCII mapping, see `lowerChar`). -/
def lower (s : Str) : Str := s.map lowerChar

/-- Strip characters satisfying `p` from the front (Python `str.lstrip`). -/
def lstripP (p : Char → Bool) : Str → Str
  | [] => []
  | c :: t => if p c then lstripP p t else c :: t

/-- Strip characters satisfying `p` from the back (Python `str.rstrip`). -/
def rstripP (p : Char → Bool) (s : Str) : Str := (lstripP p s.reverse).reverse

/-- Python `str.strip()` with no argument. -/
def strip (s : Str) : Str := rstripP isSpace (lstripP isSpace s)

/-- Drop every `'\t'`, `'\r'`, `'\n'` (the `_UNSAFE_URL_BYTES_TO_REMOVE`
loop of `urlsplit`; `str.replace(b, "")` for each of the three). -/
def removeTabCrLf (s : Str) : Str :=
  s.filter (fun c => !(c = '\t' || c = '\r' || c = '\n'))

/-- Split at the first occurrence of `c`: `some (before, after)`, or `none`
when `c` does not occur (`str.find` plus slicing). -/
def splitFirst (c : Char) : Str → Option (Str × Str)
  | [] => none
  | x :: t =>
    if x = c then some ([], t)
    else match splitFirst c t with
      | some (a, b) => some (x :: a, b)
      | none => none

/-- Split at the last occurrence of `c` (`str.rfind` plus slicing). -/
def splitLast (c : Char) (s : Str) : Option (Str × Str) :=
  match splitFirst c s.reverse with
  | some (a, b) => some (b.reverse, a.reverse)
  | none => none

/-- Python `str.split(sep)` for a one-character separator (`"".split(sep) = [""]`
is the Python behaviour on the empty string; `parse_qsl` special-cases the
empty query before calling it). -/
def splitChar (sep : Char) : Str → List Str
  | [] => [[]]
  | c :: t =>
    if c = sep then [] :: splitChar sep t
    else match splitChar sep t with
      | h :: r => (c :: h) :: r
      | [] => [[c]]

/-- Python substring containment `needle in hay`. -/
def containsSub (n : Str) : Str → Bool
  | [] => n.isEmpty
  | c :: t => n.isPrefixOf (c :: t) || containsSub n t

/-- Lexicographic comparison by code point, the Python `<` on `str`. -/
def strLt : Str → Str → Bool
  | [], [] => false
  | [], _ :: _ => true
  | _ :: _, [] => false
  | a :: s, b :: t => if a = b then strLt s t else decide (a.toNat < b.toNat)

/-- Insert into a strictly sorted list, keeping it sorted and duplicate free. -/
def insUniq (x : Str) : List Str → List Str
  | [] => [x]
  | y :: t =>
    if strLt x y then x :: y :: t
    else if x = y then y :: t
    else y :: insUniq x t

/-- Python `sorted(set(l))` for a list of strings. -/
def sortedSet (l : List Str) : List Str := l.foldr insUniq []

end PyStr

namespace PyStr

/-- UTF-8 encoding of one scalar value (`str.encode('utf-8')`, per character). -/
def utf8EncodeChar (c : Char) : List Nat :=
  let n := c.toNat
  if n < 0x80 then [n]
  else if n < 0x800 then [0xC0 + n / 64, 0x80 + n % 64]
  else if n < 0x10000 then
    [0xE0 + n / 4096, 0x80 + n / 64 % 64, 0x80 + n % 64]
  else
    [0xF0 + n / 0x40000, 0x80 + n / 4096 % 64, 0x80 + n / 64 % 64, 0x80 + n % 64]

/-- `str.encode('utf-8')` as a byte list. -/
def utf8Encode (s : Str) : List Nat := s.flatMap utf8EncodeChar

/-- Is `b` a UTF-8 continuation byte `0x80`–`0xBF`? -/
def isCont (b : Nat) : Bool := 0x80 ≤ b && b ≤ 0xBF

/-- Valid second byte for a three-byte sequence with lead `b1` (the E0/ED
restrictions rule out overlong encodings and surrogates). -/
def cont3Ok (b1 b2 : Nat) : Bool :=
  if b1 = 0xE0 then 0xA0 ≤ b2 && b2 ≤ 0xBF
  else if b1 = 0xED then 0x80 ≤ b2 && b2 ≤ 0x9F
  else isCont b2

/-- Valid second byte for a four-byte sequence with lead `b1` (the F0/F4
restrictions rule out overlong encodings and values above `0x10FFFF`). -/
def cont4Ok (b1 b2 : Nat) : Bool :=
  if b1 = 0xF0 then 0x90 ≤ b2 && b2 ≤ 0xBF
  else if b1 = 0xF4 then 0x80 ≤ b2 && b2 ≤ 0x8F
  else isCont b2

/-- U+FFFD, the replacement character. -/
def replChar : Char := '\uFFFD'

/-- Scalar value of a decoded two-byte sequence. -/
def dec2 (b b2 : Nat) : Char := Char.ofNat ((b - 0xC0) * 64 + (b2 - 0x80))

/-- Scalar value of a decoded three-byte sequence. -/
def dec3 (b b2 b3 : Nat) : Char :=
  Char.ofNat ((b - 0xE0) * 4096 + (b2 - 0x80) * 64 + (b3 - 0x80))

/-- Scalar value of a decoded four-byte sequence. -/
def dec4 (b b2 b3 b4 : Nat) : Char :=
  Char.ofNat ((b - 0xF0) * 0x40000 + (b2 - 0x80) * 4096 + (b3 - 0x80) * 64 + (b4 - 0x80))

/-- `bytes.decode('utf-8', errors='replace')`: the UTF-8 decoder with one
U+FFFD substituted per maximal subpart of an ill-formed sequence (the
Unicode practice CPython implements).  The four alternatives only split by
the length of the tail so that every recursive call is structural; they
implement the same single algorithm. -/
def utf8DecodeRepl : List Nat → Str
  | [] => []
  | [b] => if b < 0x80 then [Char.ofNat b] else [replChar]
  | b :: t@([b2]) =>
    if b < 0x80 then Char.ofNat b :: utf8DecodeRepl t
    else if b < 0xC2 then replChar :: utf8DecodeRepl t
    else if b < 0xE0 then
      if isCont b2 then [dec2 b b2] else replChar :: utf8DecodeRepl t
    else if b < 0xF0 then
      if cont3Ok b b2 then [replChar] else replChar :: utf8DecodeRepl t
    else if b < 0xF5 then
      if cont4Ok b b2 then [replChar] else replChar :: utf8DecodeRepl t
    else replChar :: utf8DecodeRepl t
  | b :: t@(b2 :: t2@([b3])) =>
    if b < 0x80 then Char.ofNat b :: utf8DecodeRepl t
    else if b < 0xC2 then replChar :: utf8DecodeRepl t
    else if b < 0xE0 then
      if isCont b2 then dec2 b b2 :: utf8DecodeRepl t2
      else replChar :: utf8DecodeRepl t
    else if b < 0xF0 then
      if cont3Ok b b2 then
        if isCont b3 then [dec3 b b2 b3] else replChar :: utf8DecodeRepl t2
      else replChar :: utf8DecodeRepl t
    else if b < 0xF5 then
      if cont4Ok b b2 then
        if isCont b3 then [replChar] else replChar :: utf8DecodeRepl t2
      else replChar :: utf8DecodeRepl t
    else replChar :: utf8DecodeRepl t
  | b :: t@(b2 :: t2@(b3 :: t3@(b4 :: _))) =>
    if b < 0x80 then Char.ofNat b :: utf8DecodeRepl t
    else if b < 0xC2 then replChar :: utf8DecodeRepl t
    else if b < 0xE0 then
      if isCont b2 then dec2 b b2 :: utf8DecodeRepl t2
      else replChar :: utf8DecodeRepl t
    else if b < 0xF0 then
      if cont3Ok b b2 then
        if isCont b3 then dec3 b b2 b3 :: utf8DecodeRepl t3
        else replChar :: utf8DecodeRepl t2
      else replChar :: utf8DecodeRepl t
    else if b < 0xF5 then
      if cont4Ok b b2 then
        if isCont b3 then
          if isCont b4 then dec4 b b2 b3 b4 :: utf8DecodeRepl (t3.drop 1)
          else replChar :: utf8DecodeRepl t3
        else replChar :: utf8DecodeRepl t2
      else replChar :: utf8DecodeRepl t
    else replChar :: utf8DecodeRepl t

/-- Value of an ASCII hex digit, if any (`urllib.parse._hextobyte` accepts
both cases). -/
def hexVal (c : Char) : Option Nat :=
  let n := c.toNat
  if isAsciiDigit c then some (n - 48)
  else if 'a' ≤ c && c ≤ 'f' then some (n - 87)
  else if 'A' ≤ c && c ≤ 'F' then some (n - 55)
  else none

/-- Code points of an ASCII run taken as bytes (only ever applied to runs of
characters `≤ 0x7F`, where the identification is exact). -/
def asciiBytes (s : Str) : List Nat := s.map Char.toNat

/-- `urllib.parse.unquote_to_bytes` on one ASCII run: split on `'%'`; after
each `'%'`, two hex digits become one byte, otherwise the `'%'` is literal. -/
def percentDecodeRun (s : Str) : List Nat :=
  match splitChar '%' s with
  | [] => []
  | b0 :: rest =>
    asciiBytes b0 ++ rest.flatMap fun item =>
      match item with
      | h1 :: h2 :: r =>
        match hexVal h1, hexVal h2 with
        | some a, some b => (16 * a + b) :: asciiBytes r
        | _, _ => '%'.toNat :: asciiBytes item
      | _ => '%'.toNat :: asciiBytes item

/-- One step of `urllib.parse.unquote`: maximal ASCII runs are
percent-decoded to bytes and UTF-8-decoded with `errors='replace'`
(CPython splits on `_asciire`); non-ASCII characters pass through. -/
def unquoteGo (acc : Str) : Str → Str
  | [] => if acc = [] then [] else utf8DecodeRepl (percentDecodeRun acc)
  | c :: t =>
    if isAscii c then unquoteGo (acc ++ [c]) t
    else
      (if acc = [] then [] else utf8DecodeRepl (percentDecodeRun acc)) ++
        c :: unquoteGo [] t

/-- `urllib.parse.unquote(s)` with the default UTF-8/replace handling. -/
def unquote (s : Str) : Str :=
  if s.contains '%' then unquoteGo [] s else s

/-- `str.replace('+', ' ')`, as applied by `parse_qsl` to names and values. -/
def plusToSpace (s : Str) : Str := s.map fun c => if c = '+' then ' ' else c

/-- One byte of `urllib.parse.quote_plus` output with `safe=''`: the
always-safe bytes (ASCII alphanumerics and `_.-~`) stand for themselves,
a space becomes `'+'`, everything else becomes `%XX` with uppercase hex. -/
def quotePlusByte (b : Nat) : Str :=
  let c := Char.ofNat b
  if (b ≤ 0x7f) &&
      (isAsciiAlpha c || isAsciiDigit c || c = '_' || c = '.' || c = '-' || c = '~') then
    [c]
  else if b = 0x20 then ['+']
  else
    ['%', (str "0123456789ABCDEF").getD (b / 16) '0',
      (str "0123456789ABCDEF").getD (b % 16) '0']

/-- `urllib.parse.quote_plus(s, safe='')`: UTF-8 encode, then quote each
byte (CPython's two code paths — with and without a space — both reduce to
this byte-wise map). -/
def quotePlus (s : Str) : Str := (utf8Encode s).flatMap quotePlusByte

/-- `urllib.parse.parse_qsl(qs, keep_blank_values=True)` with the default
separator `'&'`: empty fields are dropped, a field without `'='` becomes a
blank value, `'+'` means space, names and values are percent-decoded. -/
def parseQsl (qs : Str) : List (Str × Str) :=
  (if qs = [] then [] else splitChar '&' qs).filterMap fun nv =>
    if nv = [] then none
    else
      let p := match splitFirst '=' nv with
        | some (a, b) => (a, b)
        | none => (nv, ([] : Str))
      some (unquote (plusToSpace p.1), unquote (plusToSpace p.2))

/-- `urllib.parse.urlencode(params, doseq=True)` on a list of string pairs:
quote each side with `quote_plus`, join with `'='` and `'&'`. -/
def urlencode (ps : List (Str × Str)) : Str :=
  List.intercalate ['&'] (ps.map fun kv => quotePlus kv.1 ++ '=' :: quotePlus kv.2)

end PyStr

namespace UrlLib

open PyStr

/-- The five components returned by `urllib.parse.urlsplit`. -/
structure SplitResult where
  scheme : Str
  netloc : Str
  path : Str
  query : Str
  fragment : Str
deriving DecidableEq, Repr

/-- The six components returned by `urllib.parse.urlparse`. -/
structure ParseResult where
  scheme : Str
  netloc : Str
  path : Str
  params : Str
  query : Str
  fragment : Str
deriving DecidableEq, Repr

/-- `urllib.parse.scheme_chars` membership. -/
def schemeChar (c : Char) : Bool := isAsciiAlpha c || isAsciiDigit c || c = '+' || c = '-' || c = '.'

def usesRelative : List Str :=
  [str "", str "ftp", str "http", str "gopher", str "nntp", str "imap", str "wais",
   str "file", str "https", str "shttp", str "mms", str "prospero", str "rtsp",
   str "rtsps", str "rtspu", str "sftp", str "svn", str "svn+ssh", str "ws", str "wss"]

def usesNetloc : List Str :=
  [str "", str "ftp", str "http", str "gopher", str "nntp", str "telnet", str "imap",
   str "wais", str "file", str "mms", str "https", str "shttp", str "snews",
   str "prospero", str "rtsp", str "rtsps", str "rtspu", str "rsync", str "svn",
   str "svn+ssh", str "sftp", str "nfs", str "git", str "git+ssh", str "ws", str "wss"]

def usesParams : List Str :=
  [str "", str "ftp", str "hdl", str "prospero", str "http", str "imap", str "https",
   str "shttp", str "rtsp", str "rtsps", str "rtspu", str "sip", str "sips",
   str "mms", str "sftp", str "tel"]

/-- `urllib.parse._splitnetloc(url, 2)` without the slicing offset: scan until
the first of `'/'`, `'?'`, `'#'` and return (netloc, rest). -/
def splitNetlocScan : Str → Str × Str
  | [] => ([], [])
  | c :: t =>
    if c = '/' || c = '?' || c = '#' then ([], c :: t)
    else
      let p := splitNetlocScan t
      (c :: p.1, p.2)

/-- `ipaddress` octet parsing for IPv4: 1–3 ASCII digits, value ≤ 255, no
leading zero. -/
def validOctet (s : Str) : Bool :=
  s ≠ [] && s.length ≤ 3 && s.all isAsciiDigit &&
    (s.headD '0' ≠ '0' || s.length = 1) &&
    (s.foldl (fun a c => a * 10 + (c.toNat - '0'.toNat)) 0) ≤ 255

/-- `ipaddress.IPv4Address` acceptance of a dotted quad. -/
def validIpv4 (s : Str) : Bool :=
  let parts := splitChar '.' s
  parts.length = 4 && parts.all validOctet

/-- `ipaddress` hextet parsing for IPv6: 1–4 hex digits. -/
def validHextet (s : Str) : Bool :=
  s ≠ [] && s.length ≤ 4 && s.all (fun c => (hexVal c).isSome)

/-- `ipaddress.IPv6Address._ip_int_from_string` acceptance, without the
scope id: split on `':'`, resolve the optional single `'::'` compression,
allow a trailing embedded IPv4 address. -/
def validIpv6NoScope (s : Str) : Bool :=
  let parts0 := splitChar ':' s
  if parts0.length < 3 then false
  else
    let parts :=
      match parts0.getLast? with
      | some lastp =>
        if lastp.contains '.' then
          if validIpv4 lastp then parts0.dropLast ++ [str "0", str "0"] else []
        else parts0
      | none => parts0
    if parts = [] then false
    else if parts.length > 9 then false
    else
      -- indices 1 .. len-2 that are empty mark the '::'; at most one allowed
      let inner := (parts.drop 1).dropLast
      let emptyInner := inner.filter (fun p => p = [])
      if emptyInner.length > 1 then false
      else if emptyInner.length = 1 then
        -- '::' present: an empty first part is only the start of '::', an
        -- empty last part only its end; every other part is a hextet
        let headOk := parts.headD [] = [] || validHextet (parts.headD [])
        let lastOk := parts.getLast? = some [] || validHextet (parts.getLastD [])
        let innerOk := inner.all fun p => p = [] || validHextet p
        -- parts_skipped >= 1: count of real hextets must leave room
        let nonEmpty := parts.filter (fun p => p ≠ [])
        headOk && lastOk && innerOk && nonEmpty.length ≤ 7 &&
          (parts.headD [] ≠ [] || parts.getD 1 [] = []) &&
          (parts.getLast? ≠ some [] || parts.getD (parts.length - 2) [] = [])
      else
        parts.length = 8 && parts.all validHextet

/-- `ipaddress.IPv6Address` acceptance including the optional `%scope`. -/
def validIpv6 (s : Str) : Bool :=
  match splitFirst '%' s with
  | some (addr, scope) => scope ≠ [] && !scope.contains '%' && validIpv6NoScope addr
  | none => validIpv6NoScope s

/-- `urllib.parse._check_bracketed_host`: an IPvFuture literal `v<hex>+.<rest>`
or an address accepted by `ipaddress.ip_address` that is not IPv4. -/
def checkBracketedHost (h : Str) : Except Str Unit :=
  match h with
  | 'v' :: rest =>
    -- re.match(r"\Av[a-fA-F0-9]+\..+\Z", h): some hex digits, a dot, then a
    -- nonempty newline-free remainder
    (match splitFirst '.' rest with
     | some (hexs, tail) =>
       if hexs ≠ [] && hexs.all (fun c => (hexVal c).isSome) &&
           tail ≠ [] && !tail.contains '\n' then
         Except.ok ()
       else Except.error (str "IPvFuture address is invalid")
     | none => Except.error (str "IPvFuture address is invalid"))
  | _ =>
    if validIpv4 h then Except.error (str "An IPv4 address cannot be in brackets")
    else if validIpv6 h then Except.ok ()
    else Except.error (str "does not appear to be an IPv4 or IPv6 address")

/-- `netloc.partition('[')[2].partition(']')[0]`: the text between the first
`'['` and the following `']'`. -/
def bracketedOf (netloc : Str) : Str :=
  match splitFirst '[' netloc with
  | some (_, after) =>
    match splitFirst ']' after with
    | some (h, _) => h
    | none => after
  | none => []

/-- The scheme-detection step of `urlsplit`: split at the first `':'`; when
the prefix is a nonempty ASCII-letter-led run of scheme characters it is
the (lowercased) scheme, otherwise the default scheme is kept and the URL
is untouched.  Returns (scheme, rest). -/
def schemeSplit (ds url2 : Str) : Str × Str :=
  match splitFirst ':' url2 with
  | some (pre, post) =>
    if pre ≠ [] && isAsciiAlpha (pre.headD ' ') && pre.all schemeChar then
      (lower pre, post)
    else (ds, url2)
  | none => (ds, url2)

/-- The netloc step of `urlsplit`: when the rest starts with `//`, scan the
authority and validate brackets.  Returns (netloc, rest). -/
def netlocSplit (rest : Str) : Except Str (Str × Str) :=
  if rest.take 2 = str "//" then
    let p := splitNetlocScan (rest.drop 2)
    if (p.1.contains '[' && !p.1.contains ']') ||
        (p.1.contains ']' && !p.1.contains '[') then
      Except.error (str "Invalid IPv6 URL")
    else if p.1.contains '[' && p.1.contains ']' then do
      let _ ← checkBracketedHost (bracketedOf p.1)
      pure p
    else pure p
  else pure (([] : Str), rest)

/-- `url.split('#', 1)` when a `'#'` is present. -/
def fragmentSplit (s : Str) : Str × Str :=
  match splitFirst '#' s with
  | some (a, b) => (a, b)
  | none => (s, [])

/-- `url.split('?', 1)` when a `'?'` is present. -/
def querySplit (s : Str) : Str × Str :=
  match splitFirst '?' s with
  | some (a, b) => (a, b)
  | none => (s, [])

/-- The nineteen code points whose NFKC normalization contains one of
`/?#@:` (`unicodedata.normalize('NFKC', chr(cp))` over all of Unicode 15.0
as shipped with CPython 3.11): `⁇ ⁈ ⁉ ℀ ℁ ℅ ℆ ⩴` and the vertical,
small and fullwidth presentation forms of `# / : ? @`. -/
def nfkcBadCp : List Nat :=
  [0x2047, 0x2048, 0x2049, 0x2100, 0x2101, 0x2105, 0x2106, 0x2A74,
   0xFE13, 0xFE16, 0xFE55, 0xFE56, 0xFE5F, 0xFE6B,
   0xFF03, 0xFF0F, 0xFF1A, 0xFF1F, 0xFF20]

/-- `urllib.parse._checknetloc`.  CPython returns for an empty or all-ASCII
netloc; otherwise it drops `@ : # ?`, NFKC-normalizes the rest, and raises
iff the normalization changed the text and the result contains one of
`/ ? # @ :`.  Every netloc `urlsplit` passes here is a `_splitnetloc`
prefix, hence free of `/ ? #`; on such strings the raise condition holds
iff some character's own NFKC expansion contains one of those delimiters
(an ASCII delimiter in the normalized text can only come from a
compatibility decomposition, since no canonical composition pair involves
an ASCII character from this set, and the dropped `@ :` are ASCII), which
is the `nfkcBadCp` membership test below.  The code points of `nfkcBadCp`
are non-ASCII, so the all-ASCII early return is subsumed. -/
def checknetloc (netloc : Str) : Except Str Unit :=
  if netloc.all (fun c => !nfkcBadCp.contains c.toNat) then Except.ok ()
  else
    Except.error (str "netloc '" ++ netloc ++
      str "' contains invalid characters under NFKC normalization")

/-- `urllib.parse.urlsplit(url, scheme)` (CPython 3.11/3.12; `allow_fragments`
is `True` in every call the crawler makes).  `_checknetloc` runs last,
after the fragment and query splits, as in the source. -/
def urlsplit (url0 ds0 : Str) : Except Str SplitResult := do
  let url1 := lstripP isC0OrSpace url0
  let ds1 := rstripP isC0OrSpace (lstripP isC0OrSpace ds0)
  let url2 := removeTabCrLf url1
  let ds := removeTabCrLf ds1
  let sr := schemeSplit ds url2
  let nr ← netlocSplit sr.2
  let fr := fragmentSplit nr.2
  let qr := querySplit fr.1
  let _ ← checknetloc nr.1
  pure ⟨sr.1, nr.1, qr.1, qr.2, fr.2⟩

/-- `urllib.parse._splitparams`. -/
def splitParams (p : Str) : Str × Str :=
  if p.contains '/' then
    match splitLast '/' p with
    | some (a, b) =>
      (match splitFirst ';' b with
       | some (b1, b2) => (a ++ '/' :: b1, b2)
       | none => (p, []))
    | none => (p, [])
  else
    match splitFirst ';' p with
    | some (a, b) => (a, b)
    | none => (p, [])

/-- `urllib.parse.urlparse(url, scheme)`. -/
def urlparse (url ds : Str) : Except Str ParseResult := do
  let r ← urlsplit url ds
  if usesParams.contains r.scheme && r.path.contains ';' then
    let p := splitParams r.path
    pure ⟨r.scheme, r.netloc, p.1, p.2, r.query, r.fragment⟩
  else
    pure ⟨r.scheme, r.netloc, r.path, [], r.query, r.fragment⟩

/-- `urllib.parse.urlunsplit`. -/
def urlunsplit (scheme netloc path query fragment : Str) : Str :=
  let url :=
    if netloc ≠ [] || path.take 2 = str "//" then
      let p2 := if path ≠ [] && path.headD ' ' ≠ '/' then '/' :: path else path
      '/' :: '/' :: (netloc ++ p2)
    else path
  let url := if scheme ≠ [] then scheme ++ ':' :: url else url
  let url := if query ≠ [] then url ++ '?' :: query else url
  if fragment ≠ [] then url ++ '#' :: fragment else url

/-- `urllib.parse.urlunparse`. -/
def urlunparse (r : ParseResult) : Str :=
  let url := if r.params ≠ [] then r.path ++ ';' :: r.params else r.path
  urlunsplit r.scheme r.netloc url r.query r.fragment

/-- `segments[1:-1] = filter(None, segments[1:-1])` from `urljoin`: drop the
empty strings strictly between the first and last element. -/
def filterMidKeepLast : List Str → List Str
  | [] => []
  | [x] => [x]
  | x :: t => if x = [] then filterMidKeepLast t else x :: filterMidKeepLast t

def applyMidFilter : List Str → List Str
  | [] => []
  | [x] => [x]
  | x :: t => x :: filterMidKeepLast t

/-- `urllib.parse.urljoin(base, url)` (CPython 3.11/3.12, `allow_fragments=True`). -/
def urljoin (base url : Str) : Except Str Str :=
  if base = [] then pure url
  else if url = [] then pure base
  else do
    let b ← urlparse base (str "")
    let u ← urlparse url b.scheme
    if ¬(u.scheme = b.scheme ∧ usesRelative.contains u.scheme) then pure url
    else
      if usesNetloc.contains u.scheme && u.netloc ≠ [] then
        pure (urlunparse ⟨u.scheme, u.netloc, u.path, u.params, u.query, u.fragment⟩)
      else
        let netloc := if usesNetloc.contains u.scheme then b.netloc else u.netloc
        if u.path = [] && u.params = [] then
          let query := if u.query = [] then b.query else u.query
          pure (urlunparse ⟨u.scheme, netloc, b.path, b.params, query, u.fragment⟩)
        else
          let baseParts0 := splitChar '/' b.path
          let baseParts := if baseParts0.getLast? = some [] then baseParts0 else baseParts0.dropLast
          let segments :=
            if u.path.take 1 = str "/" then splitChar '/' u.path
            else applyMidFilter (baseParts ++ splitChar '/' u.path)
          let resolved := segments.foldl
            (fun acc seg =>
              if seg = str ".." then acc.dropLast
              else if seg = str "." then acc
              else acc ++ [seg]) []
          let resolved :=
            if segments.getLast? = some (str ".") || segments.getLast? = some (str "..") then
              resolved ++ [[]]
            else resolved
          let joined := List.intercalate ['/'] resolved
          let path := if joined = [] then str "/" else joined
          pure (urlunparse ⟨u.scheme, netloc, path, u.params, u.query, u.fragment⟩)

end UrlLib

namespace Crawler

open PyStr UrlLib

/-- `YOUTUBE_HOSTS` from `moodle_docs_crawler.py`. -/
def YOUTUBE_HOSTS : List Str :=
  [str "youtube.com", str "www.youtube.com", str "m.youtube.com",
   str "youtu.be", str "www.youtu.be"]

/-- `NOISY_QUERY_PARAMS` (a Python set; only membership is used). -/
def NOISY_QUERY_PARAMS : List Str := [str "oldid", str "printable", str "diff"]

/-- `SKIP_TOKENS`. -/
def SKIP_TOKENS : List Str :=
  [str "special:", str "action=edit", str "action=history",
   str "veaction=edit", str "printable=yes"]

/-- `normalize_url`: strip, parse, drop the fragment, drop noisy query
parameters, re-encode the remaining ones, unparse. -/
def normalize_url (url : Str) : Except Str Str := do
  let parsed ← urlparse (strip url) []
  let params := (parseQsl parsed.query).filter
    (fun kv => !NOISY_QUERY_PARAMS.contains (lower kv.1))
  pure (urlunparse ⟨parsed.scheme, parsed.netloc, parsed.path, parsed.params,
    urlencode params, []⟩)

/-- One entry of a loosely-typed structured link list: a string, a dict
(whose `href`/`url`/`link` values are modelled as `some s` when they are
strings and `none` when missing or non-string), or anything else. -/
inductive LinkItem where
  | strItem (s : Str)
  | dictItem (href url link : Option Str)
  | otherItem
deriving DecidableEq, Repr

/-- The first of the candidate values that is a non-blank string, as the
`for key in ("href", "url", "link")` loop selects it. -/
def firstNonBlank : List (Option Str) → Option Str
  | [] => none
  | some s :: t => if strip s ≠ [] then some s else firstNonBlank t
  | none :: t => firstNonBlank t

/-- `iter_link_urls`. -/
def iter_link_urls (items : Option (List LinkItem)) : List Str :=
  (items.getD []).flatMap fun item =>
    match item with
    | .strItem s => if strip s ≠ [] then [s] else []
    | .dictItem href url2 link2 =>
      match firstNonBlank [href, url2, link2] with
      | some v => [v]
      | none => []
    | .otherItem => []

/-- `normalize_links`: resolve against the base, normalize, and return the
Python `sorted(set(...))`. -/
def normalize_links (base : Str) (items : Option (List LinkItem)) : Except Str (List Str) := do
  let ns ← (iter_link_urls items).mapM fun raw => do
    normalize_url (← urljoin base raw)
  pure (sortedSet ns)

/-- Is the character one of the two quote characters of `HREF_RE`? -/
def isQuote (c : Char) : Bool := c = '"' || c = '\''

/-- One attempted match of `HREF_RE = href=["\']([^"\']+)["\']` (with
`re.IGNORECASE`) at the head of the string: the capture and the rest of the
input after the closing quote. -/
def matchHref : Str → Option (Str × Str)
  | c1 :: c2 :: c3 :: c4 :: c5 :: rest =>
    if lowerChar c1 = 'h' && lowerChar c2 = 'r' && lowerChar c3 = 'e' &&
        lowerChar c4 = 'f' && c5 = '=' then
      match rest with
      | q :: rest2 =>
        if isQuote q then
          let cap := rest2.takeWhile (fun c => !isQuote c)
          match rest2.dropWhile (fun c => !isQuote c) with
          | q2 :: tail => if cap ≠ [] && isQuote q2 then some (cap, tail) else none
          | [] => none
        else none
      | [] => none
    else none
  | _ => none

/-- `HREF_RE.findall`: left-to-right, non-overlapping; resume after each
match.  Fuel is the input length, enough because every step consumes at
least one character. -/
def hrefFindallGo : Nat → Str → List Str
  | 0, _ => []
  | _ + 1, [] => []
  | fuel + 1, s@(_ :: t) =>
    match matchHref s with
    | some (cap, rest) => cap :: hrefFindallGo fuel rest
    | none => hrefFindallGo fuel t

def hrefFindall (s : Str) : List Str := hrefFindallGo s.length s

/-- `extract_links_from_html`. -/
def extract_links_from_html (base html : Str) : Except Str (List Str × List Str) :=
  if html = [] then pure ([], [])
  else do
    let acc ← (hrefFindall html).foldlM
      (fun (acc : List Str × List Str) raw => do
        let href := strip raw
        if href = [] || (str "#").isPrefixOf href || (str "javascript:").isPrefixOf href ||
            (str "mailto:").isPrefixOf href || (str "tel:").isPrefixOf href then
          pure acc
        else do
          let link ← normalize_url (← urljoin base href)
          let parsed ← urlparse link []
          if !(parsed.scheme = str "http" || parsed.scheme = str "https") then pure acc
          else if parsed.netloc = str "docs.moodle.org" then pure (acc.1 ++ [link], acc.2)
          else pure (acc.1, acc.2 ++ [link]))
      ([], [])
    pure (sortedSet acc.1, sortedSet acc.2)

/-- `is_moodle_doc_url(url, docs_prefix)`. -/
def is_moodle_doc_url (url pfx : Str) : Except Str Bool := do
  let parsed ← urlparse url []
  pure (decide ((parsed.scheme = str "http" ∨ parsed.scheme = str "https") ∧
    parsed.netloc = str "docs.moodle.org" ∧ pfx.isPrefixOf parsed.path))

/-- `should_skip_url`. -/
def should_skip_url (url : Str) : Bool :=
  SKIP_TOKENS.any (fun t => containsSub t (lower url))

/-- `is_youtube_url`: the lowercased host must end (as a raw string suffix)
with one of the allow-list entries. -/
def is_youtube_url (url : Str) : Except Str Bool := do
  let parsed ← urlparse url []
  pure (YOUTUBE_HOSTS.any (fun p => p.isSuffixOf (lower parsed.netloc)))

/-- Characters allowed inside a `YOUTUBE_URL_RE` match after the scheme:
everything except whitespace, quotes and angle brackets. -/
def ytClassChar (c : Char) : Bool :=
  !(isSpace c || c = '"' || c = '\'' || c = '<' || c = '>')

/-- One attempted match of `YOUTUBE_URL_RE = https?://[^\s"\'<>]+` (with
`re.IGNORECASE`) at the head of the string: the matched text (original
case) and the rest. -/
def matchYt : Str → Option (Str × Str)
  | c1 :: c2 :: c3 :: c4 :: rest =>
    if lowerChar c1 = 'h' && lowerChar c2 = 't' && lowerChar c3 = 't' &&
        lowerChar c4 = 'p' then
      match rest with
      | c5 :: ':' :: '/' :: '/' :: rest6 =>
        if lowerChar c5 = 's' then
          let run := rest6.takeWhile ytClassChar
          if run ≠ [] then
            some (c1 :: c2 :: c3 :: c4 :: c5 :: ':' :: '/' :: '/' :: run, rest6.drop run.length)
          else none
        else
          match c5 :: ':' :: '/' :: '/' :: rest6 with
          | ':' :: '/' :: '/' :: rest7 =>
            let run := rest7.takeWhile ytClassChar
            if run ≠ [] then
              some (c1 :: c2 :: c3 :: c4 :: ':' :: '/' :: '/' :: run, rest7.drop run.length)
            else none
          | _ => none
      | ':' :: '/' :: '/' :: rest7 =>
        let run := rest7.takeWhile ytClassChar
        if run ≠ [] then
          some (c1 :: c2 :: c3 :: c4 :: ':' :: '/' :: '/' :: run, rest7.drop run.length)
        else none
      | _ => none
    else none
  | _ => none

/-- `YOUTUBE_URL_RE.findall`, like `hrefFindallGo`. -/
def ytFindallGo : Nat → Str → List Str
  | 0, _ => []
  | _ + 1, [] => []
  | fuel + 1, s@(_ :: t) =>
    match matchYt s with
    | some (m, rest) => m :: ytFindallGo fuel rest
    | none => ytFindallGo fuel t

def ytFindall (s : Str) : List Str := ytFindallGo s.length s

/-- `extract_youtube_from_html`: find URL-shaped substrings, strip trailing
punctuation, keep those classified as YouTube links (the Python sets are
modelled as sorted duplicate-free lists). -/
def extract_youtube_from_html (html : Str) : Except Str (List Str) :=
  if html = [] then pure []
  else do
    let urls := sortedSet ((ytFindall html).map
      (rstripP (fun c => c = ')' || c = '.' || c = ',' || c = ';')))
    let kept ← urls.foldlM
      (fun acc u => do
        let b ← is_youtube_url u
        pure (if b then acc ++ [u] else acc))
      ([] : List Str)
    pure (sortedSet kept)

/-- One entry of a loosely-typed structured image list: a string, a dict
(`src`/`url` values modelled as `some s` for strings, `none` when missing
or not truthy strings), or anything else. -/
inductive ImageItem where
  | strImg (s : Str)
  | dictImg (src url : Option Str)
  | otherImg
deriving DecidableEq, Repr

/-- A normalized image entry: `{**item, "src": img_url}` is modelled as the
new canonical `src` plus the original item (whose remaining fields the
crawler never reads). -/
structure ImageOut where
  src : Str
  orig : ImageItem
deriving DecidableEq, Repr

/-- `item.get("src") or item.get("url")` followed by the falsy check. -/
def imgRawSrc (src url : Option Str) : Option Str :=
  let urlNE := url.bind fun u => if u ≠ [] then some u else none
  match src with
  | some s => if s ≠ [] then some s else urlNE
  | none => urlNE

/-- `normalize_images`. -/
def normalize_images (base : Str) (items : Option (List ImageItem)) :
    Except Str (List ImageOut) :=
  (items.getD []).foldlM
    (fun acc item => do
      match item with
      | .strImg s => do
        let n ← normalize_url (← urljoin base s)
        pure (acc ++ [⟨n, item⟩])
      | .dictImg src url2 =>
        (match imgRawSrc src url2 with
         | some r => do
           let n ← normalize_url (← urljoin base r)
           pure (acc ++ [ImageOut.mk n item])
         | none => pure acc)
      | .otherImg => pure acc)
    []

/-- A parsed JSON document, as `json.load` would return it (object keys are
unique after parsing, duplicates in the source keep the last value). -/
inductive JsonVal where
  | jnull
  | jbool (b : Bool)
  | jnum (n : Int)
  | jstr (s : Str)
  | jarr (xs : List JsonVal)
  | jobj (fields : List (Str × JsonVal))

/-- `payload.get(k)` on a parsed JSON object. -/
def jsonGet (fields : List (Str × JsonVal)) (k : Str) : Option JsonVal :=
  (fields.find? (fun f => f.1 == k)).map (·.2)

structure CookieConfig where
  cookies : Option (List JsonVal)
  storage_state : Option JsonVal

/-- `load_cookie_config(cookies_file)`: the filesystem is a map from paths
to parsed JSON documents (`none` = the file does not exist; a file whose
content is not valid JSON is outside the model — `json.load` would raise
there too, before any fetch). -/
def load_cookie_config (cookiesFile : Option Str) (fs : Str → Option JsonVal) :
    Except Str CookieConfig :=
  match cookiesFile with
  | none => .ok ⟨none, none⟩
  | some path =>
    match fs path with
    | none => .error (str "Cookies file not found")
    | some payload =>
      match payload with
      | .jarr xs => .ok ⟨some xs, none⟩
      | .jobj fields =>
        (match jsonGet fields (str "cookies") with
         | some (.jarr _) => .ok ⟨none, some payload⟩
         | _ => .error (str "Unsupported cookies file format."))
      | _ => .error (str "Unsupported cookies file format.")

end Crawler

namespace Crawler

open PyStr UrlLib

/-- `result.links` (`none` models both a missing dict and `None`; the inner
fields model `links.get("internal", [])` / `links.get("external", [])`,
where `none` again covers a missing key or a `None` value — every such case
reaches `iter_link_urls` as an empty iteration). -/
structure LinksDict where
  internal : Option (List LinkItem)
  external : Option (List LinkItem)
deriving DecidableEq, Repr

/-- `result.media`. -/
structure MediaDict where
  images : Option (List ImageItem)
deriving DecidableEq, Repr

/-- `result.metadata`. -/
structure MetaDict where
  title : Option Str
  description : Option Str
deriving DecidableEq, Repr

/-- One fetch result as the crawler reads it from the fetch pool.  The
screenshot payload is omitted: screenshot persistence (crawler lines
303–306) writes image files, never a record in any of the four JSONL logs,
and no claim mentions it. -/
structure FetchResult where
  success : Bool
  url : Str
  error_message : Option Str
  links : Option LinksDict
  media : Option MediaDict
  metadata : Option MetaDict
  markdown : Option Str
  html : Option Str
deriving DecidableEq, Repr

/-- `{"url": ..., "error": ...}` appended to `errors.jsonl`. -/
structure ErrorRecord where
  url : Str
  error_message : Option Str
deriving DecidableEq, Repr

/-- `{"page_url": url, **image}` appended to `images.jsonl`. -/
structure ImageRecord where
  page_url : Str
  image : ImageOut
deriving DecidableEq, Repr

/-- `{"page_url": url, "youtube_url": yt}` appended to `youtube_links.jsonl`. -/
structure YoutubeRecord where
  page_url : Str
  youtube_url : Str
deriving DecidableEq, Repr

/-- The pages record appended to `pages.jsonl` (the `screenshot_file` field
is omitted together with screenshot handling). -/
structure PageRecord where
  url : Str
  title : Option Str
  description : Option Str
  markdown : Option Str
  html : Option Str
  internal_links : List Str
  external_links : List Str
  images : List ImageOut
  youtube_links : List Str
deriving DecidableEq, Repr

/-- The four append-only JSONL logs. -/
structure CrawlLogs where
  pages : List PageRecord
  images : List ImageRecord
  youtube : List YoutubeRecord
  errors : List ErrorRecord
deriving DecidableEq, Repr

/-- The controller's mutable state: the frontier deque, the `queued` and
`visited` sets (modelled as duplicate-free lists), the counters and the
logs. -/
structure CrawlState where
  frontier : List Str
  queued : List Str
  visited : List Str
  discovered : Nat
  successCount : Nat
  failedCount : Nat
  uniqueImages : List Str
  uniqueYoutube : List Str
  logs : CrawlLogs
deriving DecidableEq, Repr

def initLogs : CrawlLogs := ⟨[], [], [], []⟩

def emptyState : CrawlState := ⟨[], [], [], 0, 0, 0, [], [], initLogs⟩

/-- The inner batch-building loop (crawler lines 243–251): pop from the
frontier while the batch is under `max_concurrent` and the page budget
allows, skipping URLs already visited and marking the selected ones
visited before dispatch.  Returns (frontier, visited, batch). -/
def buildBatch (maxC : Nat) (lim : Option Nat) (disc : Nat) :
    List Str → List Str → List Str → List Str × List Str × List Str
  | [], visited, batch => ([], visited, batch)
  | u :: rest, visited, batch =>
    if batch.length ≥ maxC then (u :: rest, visited, batch)
    else if (match lim with
             | some L => decide (disc + batch.length ≥ L)
             | none => false) then (u :: rest, visited, batch)
    else if u ∈ visited then buildBatch maxC lim disc rest visited batch
    else buildBatch maxC lim disc rest (visited ++ [u]) (batch ++ [u])

/-- The `for link in internal_urls` enqueue loop (lines 277–283): drop
links already visited or queued, drop links failing the scope or skip
checks, append the rest to the frontier and the queued set.  A `ValueError`
from `urlparse` inside `is_moodle_doc_url` aborts (second component). -/
def enqueueLinks (pfx : Str) : CrawlState → List Str → CrawlState × Option Str
  | s, [] => (s, none)
  | s, link :: t =>
    if link ∈ s.visited ∨ link ∈ s.queued then enqueueLinks pfx s t
    else
      match is_moodle_doc_url link pfx with
      | .error e => (s, some e)
      | .ok b =>
        if ¬b ∨ should_skip_url link then enqueueLinks pfx s t
        else
          enqueueLinks pfx
            {s with
              frontier := s.frontier ++ [link]
              queued := s.queued ++ [link]} t

/-- The `for image in images` loop (lines 286–291): record each canonical
image source at most once per crawl. -/
def recordImages (url : Str) : CrawlState → List ImageOut → CrawlState
  | s, [] => s
  | s, img :: t =>
    if img.src ∈ s.uniqueImages then recordImages url s t
    else
      recordImages url
        {s with
          uniqueImages := s.uniqueImages ++ [img.src]
          logs := {s.logs with images := s.logs.images ++ [⟨url, img⟩]}} t

/-- The `for yt in sorted(youtube_links)` loop (lines 297–301). -/
def recordYoutube (url : Str) : CrawlState → List Str → CrawlState
  | s, [] => s
  | s, yt :: t =>
    if yt ∈ s.uniqueYoutube then recordYoutube url s t
    else
      recordYoutube url
        {s with
          uniqueYoutube := s.uniqueYoutube ++ [yt]
          logs := {s.logs with youtube := s.logs.youtube ++ [⟨url, yt⟩]}} t

/-- Processing of one fetch result (lines 256–322).  The second component
carries a raised exception (all of them `ValueError`s out of `urlparse`);
state mutations made before the raise are kept, as they are in Python. -/
def processResult (pfx : Str) (s0 : CrawlState) (r : FetchResult) :
    CrawlState × Option Str :=
  let s := {s0 with discovered := s0.discovered + 1}
  match normalize_url r.url with
  | .error e => (s, some e)
  | .ok url =>
    if !r.success then
      ({s with
        failedCount := s.failedCount + 1
        logs := {s.logs with errors := s.logs.errors ++ [⟨url, r.error_message⟩]}}, none)
    else
      let s := {s with successCount := s.successCount + 1}
      match normalize_links url (r.links.getD ⟨none, none⟩).internal with
      | .error e => (s, some e)
      | .ok int0 =>
        match normalize_links url (r.links.getD ⟨none, none⟩).external with
        | .error e => (s, some e)
        | .ok ext0 =>
          match (if int0 = [] ∧ ext0 = [] then
                  extract_links_from_html url (r.html.getD [])
                 else .ok (int0, ext0)) with
          | .error e => (s, some e)
          | .ok urls =>
            match enqueueLinks pfx s urls.1 with
            | (s1, some e) => (s1, some e)
            | (s1, none) =>
              match normalize_images url (r.media.getD ⟨none⟩).images with
              | .error e => (s1, some e)
              | .ok images =>
                let s2 := recordImages url s1 images
                match ext0Youtube urls.2 with
                | .error e => (s2, some e)
                | .ok yt1 =>
                  match extract_youtube_from_html (r.html.getD []) with
                  | .error e => (s2, some e)
                  | .ok yt2 =>
                    match (sortedSet (yt1 ++ yt2)).mapM normalize_url with
                    | .error e => (s2, some e)
                    | .ok ytNorm =>
                      let ytSet := sortedSet ytNorm
                      let s3 := recordYoutube url s2 ytSet
                      ({s3 with logs := {s3.logs with pages := s3.logs.pages ++
                        [⟨url, (r.metadata.getD ⟨none, none⟩).title,
                          (r.metadata.getD ⟨none, none⟩).description, r.markdown, r.html,
                          urls.1, urls.2, images, ytSet⟩]}}, none)
where
  /-- `{link for link in external_urls if is_youtube_url(link)}`. -/
  ext0Youtube (ext : List Str) : Except Str (List Str) :=
    ext.foldlM
      (fun acc l => do
        let b ← is_youtube_url l
        pure (if b then acc ++ [l] else acc))
      []

/-- The `for result in results` loop (line 256): process each result in
order, stopping at a raised exception. -/
def processResults (pfx : Str) : CrawlState → List FetchResult → CrawlState × Option Str
  | s, [] => (s, none)
  | s, r :: t =>
    match processResult pfx s r with
    | (s', none) => processResults pfx s' t
    | (s', some e) => (s', some e)

/-- What one outer-loop iteration dispatched and saw: the batch, the state
at the moment of dispatch (after batch building, before processing) and the
state after the batch was processed. -/
structure IterLog where
  batch : List Str
  atDispatch : CrawlState
  after : CrawlState
deriving DecidableEq, Repr

/-- The configuration surface of `crawl_moodle_docs` that can influence the
traversal and the four logs.  `out_dir`, `with_screenshots`,
`delay_seconds` and `user_agent` are omitted: they only affect directory
creation, screenshot files, sleeping and browser identity, never a record
in the four logs.  A negative Python `max_pages` behaves exactly like `0`
(no limit), so `Nat` loses nothing. -/
structure CrawlConfig where
  start_url : Str
  docsPfx : Str
  max_pages : Nat
  max_concurrent : Nat
  cookies_file : Option Str
deriving DecidableEq, Repr

/-- `max_pages if max_pages > 0 else None` (line 234). -/
def pageLimit (cfg : CrawlConfig) : Option Nat :=
  if cfg.max_pages > 0 then some cfg.max_pages else none

/-- `page_limit is None or discovered < page_limit`. -/
def underLimit (lim : Option Nat) (d : Nat) : Bool :=
  match lim with
  | some L => decide (d < L)
  | none => true

/-- The outer `while frontier and (...)` loop (lines 242–330), driven by
fuel (the Python loop need not terminate, e.g. with `max_concurrent = 0`).
`crawler.arun_many(urls=batch, ...)` is modelled by applying the fetch-pool
oracle to each batch URL, one result per URL; rate limiting and progress
printing touch no state. -/
def runLoop (pfx : Str) (lim : Option Nat) (maxC : Nat) (oracle : Str → FetchResult) :
    Nat → CrawlState → CrawlState × List IterLog × Option Str
  | 0, s => (s, [], none)
  | fuel + 1, s =>
    if s.frontier ≠ [] ∧ underLimit lim s.discovered then
      let bb := buildBatch maxC lim s.discovered s.frontier s.visited []
      let s1 := {s with
        frontier := bb.1
        visited := bb.2.1}
      let batch := bb.2.2
      if batch = [] then runLoop pfx lim maxC oracle fuel s1
      else
        let results := batch.map oracle
        match processResults pfx s1 results with
        | (s2, some e) => (s2, [⟨batch, s1, s2⟩], some e)
        | (s2, none) =>
          let rest := runLoop pfx lim maxC oracle fuel s2
          (rest.1, ⟨batch, s1, s2⟩ :: rest.2.1, rest.2.2)
    else (s, [], none)

/-- The whole crawl outcome: final state, one entry per dispatched batch,
and the exception that ended the run, if any. -/
structure RunOutcome where
  final : CrawlState
  iters : List IterLog
  err : Option Str
deriving DecidableEq, Repr

/-- `crawl_moodle_docs` (lines 209–335): `ensure_dirs` only creates
directories (no record), then `build_browser_config` loads the cookie
configuration — a failure there aborts before the frontier even exists —
then the frontier is seeded with the normalized start URL and the loop
runs. -/
def crawl_moodle_docs (cfg : CrawlConfig) (fs : Str → Option JsonVal)
    (oracle : Str → FetchResult) (fuel : Nat) : RunOutcome :=
  match load_cookie_config cfg.cookies_file fs with
  | .error e => ⟨emptyState, [], some e⟩
  | .ok _ =>
    match normalize_url cfg.start_url with
    | .error e => ⟨emptyState, [], some e⟩
    | .ok s0 =>
      let st0 : CrawlState := ⟨[s0], [s0], [], 0, 0, 0, [], [], initLogs⟩
      let res := runLoop cfg.docsPfx (pageLimit cfg) cfg.max_concurrent oracle fuel st0
      ⟨res.1, res.2.1, res.2.2⟩

end Crawler

/-! ## Claim C5: parameter filtering in `normalize_url` -/

/-- Claim C5: normalizing `https://site/x?oldid=5&keep=1#frag` yields
`https://site/x?keep=1` — the fragment is removed, query parameters with a
noisy (case-insensitive) key are removed, and the remaining parameters keep
their order and multiplicity, as the second concrete probe
(`?a=1&OldId=2&a=2&b=3` with a repeated `a`) shows. -/
theorem claim_C5 :
    Crawler.normalize_url (str "https://site/x?oldid=5&keep=1#frag") =
      Except.ok (str "https://site/x?keep=1") ∧
    Crawler.normalize_url (str "https://site/x?a=1&OldId=2&a=2&b=3#f") =
      Except.ok (str "https://site/x?a=1&a=2&b=3") := by
  decide

/-! ## Claim C2: idempotence of `normalize_url` -/

/-- A crawl of a single URL that fails to fetch. -/
def c3Cfg : Crawler.CrawlConfig :=
  { start_url := str "https://docs.moodle.org/403/en/A"
    docsPfx := str "/403/en/"
    max_pages := 1
    max_concurrent := 1
    cookies_file := none }

def c3Oracle : Str → Crawler.FetchResult := fun u =>
  { success := false, url := u, error_message := some (str "x")
    links := none, media := none, metadata := none, markdown := none, html := none }

def c3Out : Crawler.RunOutcome := Crawler.crawl_moodle_docs c3Cfg (fun _ => none) c3Oracle 2

/-- Counterexample to claim C3 as stated: at the dispatch point of the very
first batch, the start URL is simultaneously in the dispatch batch, in the
`queued` set and in the `visited` set — the three memberships are not
mutually exclusive (the code marks in-flight URLs as visited when selecting
them and never removes anything from `queued`). -/
theorem claim_C3_counterexample :
    (c3Out.iters.map fun il => (il.batch, il.atDispatch.queued, il.atDispatch.visited)) =
      [([str "https://docs.moodle.org/403/en/A"],
        [str "https://docs.moodle.org/403/en/A"],
        [str "https://docs.moodle.org/403/en/A"])] ∧
    str "https://docs.moodle.org/403/en/A" ∈
      (c3Out.iters.headD ⟨[], Crawler.emptyState, Crawler.emptyState⟩).batch ∧
    str "https://docs.moodle.org/403/en/A" ∈
      (c3Out.iters.headD ⟨[], Crawler.emptyState, Crawler.emptyState⟩).atDispatch.queued ∧
    str "https://docs.moodle.org/403/en/A" ∈
      (c3Out.iters.headD ⟨[], Crawler.emptyState, Crawler.emptyState⟩).atDispatch.visited := by
  decide

/-! ## Claim C6: the scope check -/

/-- Claim C6: `is_moodle_doc_url(url, docs_prefix)` holds iff the scheme is
`http` or `https`, the host equals the target site's host
(`docs.moodle.org` in this crawler), and the path starts with the
configured prefix; with prefix `/docs/en/` the in-scope URL passes and the
wrong-language-path and wrong-host URLs fail. -/
theorem claim_C6 :
    (∀ (url pfx : Str) (p : UrlLib.ParseResult), UrlLib.urlparse url [] = Except.ok p →
      (Crawler.is_moodle_doc_url url pfx = Except.ok true ↔
        (p.scheme = str "http" ∨ p.scheme = str "https") ∧
        p.netloc = str "docs.moodle.org" ∧ pfx.isPrefixOf p.path)) ∧
    Crawler.is_moodle_doc_url (str "https://docs.moodle.org/docs/en/FAQ") (str "/docs/en/") =
      Except.ok true ∧
    Crawler.is_moodle_doc_url (str "https://docs.moodle.org/docs/fr/FAQ") (str "/docs/en/") =
      Except.ok false ∧
    Crawler.is_moodle_doc_url (str "https://other-host/docs/en/FAQ") (str "/docs/en/") =
      Except.ok false := by
  refine ⟨?_, by decide, by decide, by decide⟩
  intro url pfx p h
  simp [Crawler.is_moodle_doc_url, h, bind, Except.bind, pure, Except.pure]

/-- Witness for the quantified part of claim C6 at a concrete input. -/
theorem claim_C6_witness :
    Crawler.is_moodle_doc_url (str "https://docs.moodle.org/403/en/X") (str "/403/en/") =
      Except.ok true :=
  (claim_C6.1 (str "https://docs.moodle.org/403/en/X") (str "/403/en/")
      ⟨str "https", str "docs.moodle.org", str "/403/en/X", [], [], []⟩
      (by decide)).mpr (by decide)

/-! ## Claim C10: video-link detection by raw host suffix -/

/-- Claim C10: `is_youtube_url` holds iff the lowercased host ends — as a
raw string suffix, not at a domain-label boundary — with one of the
allow-list entries; in particular `notyoutube.com` and `evilyoutu.be`
hosts classify as video links. -/
theorem claim_C10 :
    (∀ (url : Str) (p : UrlLib.ParseResult), UrlLib.urlparse url [] = Except.ok p →
      (Crawler.is_youtube_url url = Except.ok true ↔
        ∃ pat ∈ Crawler.YOUTUBE_HOSTS, pat.isSuffixOf (PyStr.lower p.netloc))) ∧
    Crawler.is_youtube_url (str "https://notyoutube.com/x") = Except.ok true ∧
    Crawler.is_youtube_url (str "https://evilyoutu.be/watch") = Except.ok true := by
  refine ⟨?_, by decide, by decide⟩
  intro url p h
  simp [Crawler.is_youtube_url, h, bind, Except.bind, pure, Except.pure, List.any_eq_true]

/-- Witness for the quantified part of claim C10 at a concrete input. -/
theorem claim_C10_witness :
    Crawler.is_youtube_url (str "https://www.youtube.com/watch?v=1") = Except.ok true :=
  (claim_C10.1 (str "https://www.youtube.com/watch?v=1")
      ⟨str "https", str "www.youtube.com", str "/watch", [], str "v=1", []⟩
      (by decide)).mpr ⟨str "youtube.com", by decide, by decide⟩

/-! ## Claim C4: totality of `normalize_url` -/

namespace PyStr

theorem mem_of_mem_lstripP {p : Char → Bool} {s : Str} {a : Char}
    (h : a ∈ lstripP p s) : a ∈ s := by
  induction s with
  | nil => simp [lstripP] at h
  | cons c t ih =>
    by_cases hc : p c
    · simp only [lstripP, hc, if_true] at h
      exact List.mem_cons_of_mem _ (ih h)
    · simpa [lstripP, hc] using h

theorem mem_of_mem_rstripP {p : Char → Bool} {s : Str} {a : Char}
    (h : a ∈ rstripP p s) : a ∈ s := by
  unfold rstripP at h
  rw [List.mem_reverse] at h
  have := mem_of_mem_lstripP h
  rwa [List.mem_reverse] at this

theorem mem_of_mem_strip {s : Str} {a : Char} (h : a ∈ strip s) : a ∈ s :=
  mem_of_mem_lstripP (mem_of_mem_rstripP h)

theorem mem_of_mem_removeTabCrLf {s : Str} {a : Char}
    (h : a ∈ removeTabCrLf s) : a ∈ s :=
  List.mem_of_mem_filter h

theorem splitFirst_parts {c : Char} {s x y : Str}
    (h : splitFirst c s = some (x, y)) :
    (∀ a ∈ x, a ∈ s) ∧ ∀ a ∈ y, a ∈ s := by
  induction s generalizing x y with
  | nil => simp [splitFirst] at h
  | cons d t ih =>
    by_cases hd : d = c
    · simp only [splitFirst, hd, if_true] at h
      obtain ⟨rfl, rfl⟩ := Prod.mk.injEq .. ▸ Option.some.injEq .. ▸ h
      constructor
      · intro a ha; cases ha
      · intro a ha; exact List.mem_cons_of_mem _ ha
    · simp only [splitFirst, hd, if_false] at h
      cases hsp : splitFirst c t with
      | none => rw [hsp] at h; cases h
      | some p =>
        rw [hsp] at h
        obtain ⟨a0, b0⟩ := p
        obtain ⟨rfl, rfl⟩ := Prod.mk.injEq .. ▸ Option.some.injEq .. ▸ h
        obtain ⟨h1, h2⟩ := ih hsp
        constructor
        · intro a ha
          rcases List.mem_cons.mp ha with rfl | ha
          · exact List.mem_cons_self _ _
          · exact List.mem_cons_of_mem _ (h1 a ha)
        · intro a ha; exact List.mem_cons_of_mem _ (h2 a ha)

end PyStr

namespace UrlLib

open PyStr

theorem splitNetlocScan_fst_mem {s : Str} {a : Char}
    (h : a ∈ (splitNetlocScan s).1) : a ∈ s := by
  induction s with
  | nil => simp [splitNetlocScan] at h
  | cons c t ih =>
    unfold splitNetlocScan at h
    split at h
    · cases h
    · rcases List.mem_cons.mp h with rfl | h
      · exact List.mem_cons_self _ _
      · exact List.mem_cons_of_mem _ (ih h)

/-- Which characters the scheme-split step can leave in `rest`: everything
comes from the input. -/
theorem schemeSplit_snd_mem {ds url2 : Str} {a : Char}
    (h : a ∈ (schemeSplit ds url2).2) : a ∈ url2 := by
  unfold schemeSplit at h
  split at h
  case h_2 => exact h
  case h_1 pre post hsp =>
    split at h
    · exact (splitFirst_parts hsp).2 a h
    · exact h

/-- Every code point of `nfkcBadCp` is at least U+2047, so in particular
non-ASCII. -/
theorem nfkcBadCp_ge {n : Nat} (h : n ∈ nfkcBadCp) : 0x2047 ≤ n := by
  simp only [nfkcBadCp, List.mem_cons, List.not_mem_nil, or_false] at h
  rcases h with rfl | rfl | rfl | rfl | rfl | rfl | rfl | rfl | rfl | rfl |
    rfl | rfl | rfl | rfl | rfl | rfl | rfl | rfl | rfl <;> omega

/-- The NFKC check passes on every all-ASCII netloc (as CPython's early
`isascii` return makes explicit). -/
theorem checknetloc_ascii {n : Str} (h : ∀ c ∈ n, isAscii c = true) :
    checknetloc n = Except.ok () := by
  unfold checknetloc
  rw [if_pos]
  rw [List.all_eq_true]
  intro c hc
  have hle : c.toNat ≤ 0x7f := by
    have := h c hc
    unfold isAscii at this
    exact of_decide_eq_true this
  simp only [Bool.not_eq_true']
  apply Bool.eq_false_iff.mpr
  intro hcc
  have hm : c.toNat ∈ nfkcBadCp := by simpa using hcc
  have := nfkcBadCp_ge hm
  omega

/-- When no square bracket occurs in `rest`, the netloc step cannot fail,
and the netloc it returns is made of characters of `rest`. -/
theorem netlocSplit_ok {rest : Str} (h1 : '[' ∉ rest) (h2 : ']' ∉ rest) :
    ∃ p, netlocSplit rest = Except.ok p ∧ ∀ c ∈ p.1, c ∈ rest := by
  unfold netlocSplit
  by_cases hs : List.take 2 rest = str "//"
  · have hb1 : '[' ∉ (splitNetlocScan (List.drop 2 rest)).1 := fun hb =>
      h1 (List.mem_of_mem_drop (splitNetlocScan_fst_mem hb))
    have hb2 : ']' ∉ (splitNetlocScan (List.drop 2 rest)).1 := fun hb =>
      h2 (List.mem_of_mem_drop (splitNetlocScan_fst_mem hb))
    exact ⟨splitNetlocScan (List.drop 2 rest),
      by simp [hs, hb1, hb2, pure, Except.pure],
      fun c hc => List.mem_of_mem_drop (splitNetlocScan_fst_mem hc)⟩
  · exact ⟨([], rest), by simp [hs, pure, Except.pure], fun c hc => absurd hc (by simp)⟩

/-- `urlsplit` succeeds on every all-ASCII input without square brackets. -/
theorem urlsplit_ok {u : Str} (ds : Str) (h1 : '[' ∉ u) (h2 : ']' ∉ u)
    (h3 : ∀ c ∈ u, isAscii c = true) :
    ∃ r, urlsplit u ds = Except.ok r := by
  have hmem : ∀ a ∈ (schemeSplit (removeTabCrLf (rstripP isC0OrSpace (lstripP isC0OrSpace ds)))
      (removeTabCrLf (lstripP isC0OrSpace u))).2, a ∈ u := by
    intro a ha
    exact mem_of_mem_lstripP (mem_of_mem_removeTabCrLf (schemeSplit_snd_mem ha))
  obtain ⟨p, hp, hpmem⟩ :=
    netlocSplit_ok (fun hc => h1 (hmem _ hc)) (fun hc => h2 (hmem _ hc))
  have hcn : checknetloc p.1 = Except.ok () :=
    checknetloc_ascii fun c hc => h3 c (hmem c (hpmem c hc))
  refine ⟨⟨(schemeSplit (removeTabCrLf (rstripP isC0OrSpace (lstripP isC0OrSpace ds)))
      (removeTabCrLf (lstripP isC0OrSpace u))).1, p.1,
      (querySplit (fragmentSplit p.2).1).1, (querySplit (fragmentSplit p.2).1).2,
      (fragmentSplit p.2).2⟩, ?_⟩
  simp only [urlsplit, bind, Except.bind, hp, hcn, pure, Except.pure]

/-- `urlparse` succeeds on every all-ASCII input without square brackets. -/
theorem urlparse_ok {u : Str} (ds : Str) (h1 : '[' ∉ u) (h2 : ']' ∉ u)
    (h3 : ∀ c ∈ u, isAscii c = true) :
    ∃ r, urlparse u ds = Except.ok r := by
  obtain ⟨r, hr⟩ := urlsplit_ok ds h1 h2 h3
  unfold urlparse
  rw [hr]
  simp only [bind, Except.bind]
  split
  · exact ⟨_, rfl⟩
  · exact ⟨_, rfl⟩

end UrlLib

/-- Counterexample to claim C4 as stated: `normalize_url` is not total.
Two failure modes: on `http://[` the underlying `urlparse` raises
`ValueError("Invalid IPv6 URL")`, and on `http://\u2100` (U+2100 `℀`,
whose NFKC normalization is `a/c`) `_checknetloc` raises `ValueError`
about invalid characters under NFKC normalization — in both cases the
crawler would crash rather than receive a best-effort canonical string. -/
theorem claim_C4_counterexample :
    Crawler.normalize_url (str "http://[") = Except.error (str "Invalid IPv6 URL") ∧
    Crawler.normalize_url (str "http://\u2100") = Except.error
      (str "netloc '\u2100' contains invalid characters under NFKC normalization") := by
  decide

/-- Claim C4, amended: `normalize_url` is a pure total function on every
all-ASCII URL string containing no square bracket.  Outside that domain it
can raise: a square-bracketed (IPv6-style) authority can fail the bracket
checks, and a non-ASCII authority can fail the NFKC check. -/
theorem claim_C4_amended {u : Str} (h1 : '[' ∉ u) (h2 : ']' ∉ u)
    (h3 : ∀ c ∈ u, PyStr.isAscii c = true) :
    ∃ v, Crawler.normalize_url u = Except.ok v := by
  have hs1 : '[' ∉ PyStr.strip u := fun hc => h1 (PyStr.mem_of_mem_strip hc)
  have hs2 : ']' ∉ PyStr.strip u := fun hc => h2 (PyStr.mem_of_mem_strip hc)
  have hs3 : ∀ c ∈ PyStr.strip u, PyStr.isAscii c = true :=
    fun c hc => h3 c (PyStr.mem_of_mem_strip hc)
  obtain ⟨r, hr⟩ := UrlLib.urlparse_ok [] hs1 hs2 hs3
  unfold Crawler.normalize_url
  rw [hr]
  exact ⟨_, rfl⟩

/-- Witness for claim C4 at a concrete input. -/
theorem claim_C4_witness :
    ∃ v, Crawler.normalize_url (str "https://docs.moodle.org/403/en/Main_page?oldid=1") =
      Except.ok v :=
  claim_C4_amended (by decide) (by decide) (by decide)

/-! ## Claim C9: fatal cookie-configuration errors abort before any fetch -/

namespace Crawler

/-- Does the credential document load successfully?  `none` is a missing
file; otherwise the document must be a JSON array, or a JSON object whose
`cookies` member is an array. -/
def cookieDocOk : Option JsonVal → Bool
  | none => false
  | some (.jarr _) => true
  | some (.jobj fields) =>
    match jsonGet fields (str "cookies") with
    | some (.jarr _) => true
    | _ => false
  | some _ => false

/-- `load_cookie_config` fails exactly when the document is bad. -/
theorem load_cookie_config_error {path : Str} {fs : Str → Option JsonVal}
    (h : cookieDocOk (fs path) = false) :
    ∃ e, load_cookie_config (some path) fs = Except.error e := by
  unfold load_cookie_config
  cases hfs : fs path with
  | none => exact ⟨str "Cookies file not found", by simp [hfs]⟩
  | some j =>
    rw [hfs] at h
    cases j with
    | jarr xs => simp [cookieDocOk] at h
    | jobj fields =>
      simp only [cookieDocOk] at h
      cases hg : jsonGet fields (str "cookies") with
      | none => exact ⟨str "Unsupported cookies file format.", by simp [hfs, hg]⟩
      | some v =>
        rw [hg] at h
        cases v with
        | jarr xs => simp at h
        | jnull => exact ⟨str "Unsupported cookies file format.", by simp [hfs, hg]⟩
        | jbool b => exact ⟨str "Unsupported cookies file format.", by simp [hfs, hg]⟩
        | jnum n => exact ⟨str "Unsupported cookies file format.", by simp [hfs, hg]⟩
        | jstr s => exact ⟨str "Unsupported cookies file format.", by simp [hfs, hg]⟩
        | jobj f2 => exact ⟨str "Unsupported cookies file format.", by simp [hfs, hg]⟩
    | jnull => exact ⟨str "Unsupported cookies file format.", by simp [hfs]⟩
    | jbool b => exact ⟨str "Unsupported cookies file format.", by simp [hfs]⟩
    | jnum n => exact ⟨str "Unsupported cookies file format.", by simp [hfs]⟩
    | jstr s => exact ⟨str "Unsupported cookies file format.", by simp [hfs]⟩

end Crawler

/-- Claim C9: when a credential file path is configured but the file is
missing, or its JSON content is neither an array nor an object with a
`cookies` array, the run aborts with a configuration error before any
batch is dispatched, and every log is still empty (the final state is the
pristine one: no page, image, video-link or error record). -/
theorem claim_C9 (cfg : Crawler.CrawlConfig) (fs : Str → Option Crawler.JsonVal)
    (oracle : Str → Crawler.FetchResult) (fuel : Nat) (path : Str)
    (hpath : cfg.cookies_file = some path)
    (hbad : Crawler.cookieDocOk (fs path) = false) :
    ∃ e, Crawler.crawl_moodle_docs cfg fs oracle fuel =
      ⟨Crawler.emptyState, [], some e⟩ := by
  obtain ⟨e, he⟩ := Crawler.load_cookie_config_error hbad
  refine ⟨e, ?_⟩
  unfold Crawler.crawl_moodle_docs
  rw [hpath, he]

/-- Witness for claim C9: a configured path whose file does not exist. -/
theorem claim_C9_witness :
    ∃ e, Crawler.crawl_moodle_docs
        { start_url := str "https://docs.moodle.org/403/en/A"
          docsPfx := str "/403/en/"
          max_pages := 1
          max_concurrent := 1
          cookies_file := some (str "cookies.json") }
        (fun _ => none) c3Oracle 5 =
      ⟨Crawler.emptyState, [], some e⟩ :=
  claim_C9 _ _ _ 5 (str "cookies.json") rfl rfl

/-! ## The controller-loop invariants (claims C1, C3, C7, C8) -/

namespace Crawler

/-- Everything the batch-building loop guarantees: it removes a prefix of
the frontier, appends the same fresh, duplicate-free selection `Δ` to both
`visited` and the batch, and every popped-but-unselected URL was already
visited. -/
theorem buildBatch_spec (maxC : Nat) (lim : Option Nat) (disc : Nat) :
    ∀ (frontier visited batch : List Str),
    ∃ (Δ : List Str) (n : Nat),
      buildBatch maxC lim disc frontier visited batch =
        (frontier.drop n, visited ++ Δ, batch ++ Δ) ∧
      Δ.Nodup ∧ (∀ u ∈ Δ, u ∉ visited) ∧ (∀ u ∈ Δ, u ∈ frontier.take n) ∧
      (∀ u ∈ frontier.take n, u ∈ visited ∨ u ∈ Δ) := by
  intro frontier
  induction frontier with
  | nil =>
    intro visited batch
    exact ⟨[], 0, by simp [buildBatch], by simp, by simp, by simp, by simp⟩
  | cons u rest ih =>
    intro visited batch
    simp only [buildBatch]
    split
    · exact ⟨[], 0, by simp, by simp, by simp, by simp, by simp⟩
    · split
      · exact ⟨[], 0, by simp, by simp, by simp, by simp, by simp⟩
      · split
        case isTrue hv =>
          obtain ⟨Δ, n, heq, hnd, hfresh, htake, hpop⟩ := ih visited batch
          refine ⟨Δ, n + 1, ?_, hnd, hfresh, ?_, ?_⟩
          · rw [heq]
            simp
          · intro x hx
            simp only [List.take_succ_cons]
            exact List.mem_cons_of_mem _ (htake x hx)
          · intro x hx
            simp only [List.take_succ_cons] at hx
            rcases List.mem_cons.mp hx with rfl | hx
            · exact Or.inl hv
            · exact hpop x hx
        case isFalse hv =>
          obtain ⟨Δ, n, heq, hnd, hfresh, htake, hpop⟩ := ih (visited ++ [u]) (batch ++ [u])
          refine ⟨u :: Δ, n + 1, ?_, ?_, ?_, ?_, ?_⟩
          · rw [heq]
            simp
          · refine List.nodup_cons.mpr ⟨?_, hnd⟩
            intro hu
            exact (hfresh u hu) (by simp)
          · intro x hx
            rcases List.mem_cons.mp hx with rfl | hx
            · exact hv
            · intro hmem
              exact (hfresh x hx) (by simp [hmem])
          · intro x hx
            simp only [List.take_succ_cons]
            rcases List.mem_cons.mp hx with rfl | hx
            · exact List.mem_cons_self _ _
            · exact List.mem_cons_of_mem _ (htake x hx)
          · intro x hx
            simp only [List.take_succ_cons] at hx
            rcases List.mem_cons.mp hx with rfl | hx
            · exact Or.inr (List.mem_cons_self _ _)
            · rcases hpop x hx with hvx | hΔ
              · rcases List.mem_append.mp hvx with hvx | hvx
                · exact Or.inl hvx
                · exact Or.inr (by simp [List.mem_singleton.mp hvx])
              · exact Or.inr (List.mem_cons_of_mem _ hΔ)

/-- Everything the enqueue loop guarantees: only `frontier` and `queued`
change, both by the same appended fresh, duplicate-free selection of links. -/
theorem enqueueLinks_spec (pfx : Str) :
    ∀ (links : List Str) (s : CrawlState),
    (enqueueLinks pfx s links).1.visited = s.visited ∧
    (enqueueLinks pfx s links).1.discovered = s.discovered ∧
    (enqueueLinks pfx s links).1.successCount = s.successCount ∧
    (enqueueLinks pfx s links).1.failedCount = s.failedCount ∧
    (enqueueLinks pfx s links).1.uniqueImages = s.uniqueImages ∧
    (enqueueLinks pfx s links).1.uniqueYoutube = s.uniqueYoutube ∧
    (enqueueLinks pfx s links).1.logs = s.logs ∧
    ∃ Δ, (enqueueLinks pfx s links).1.frontier = s.frontier ++ Δ ∧
      (enqueueLinks pfx s links).1.queued = s.queued ++ Δ ∧ Δ.Nodup ∧
      ∀ u ∈ Δ, u ∈ links ∧ u ∉ s.queued ∧ u ∉ s.visited := by
  intro links
  induction links with
  | nil =>
    intro s
    exact ⟨rfl, rfl, rfl, rfl, rfl, rfl, rfl, [], by simp [enqueueLinks],
      by simp [enqueueLinks], by simp, by simp⟩
  | cons link t ih =>
    intro s
    simp only [enqueueLinks]
    split
    case isTrue hin =>
      obtain ⟨h1, h2, h3, h4, h5, h6, h7, Δ, hf, hq, hnd, hmem⟩ := ih s
      exact ⟨h1, h2, h3, h4, h5, h6, h7, Δ, hf, hq, hnd,
        fun u hu => ⟨List.mem_cons_of_mem _ (hmem u hu).1, (hmem u hu).2.1, (hmem u hu).2.2⟩⟩
    case isFalse hin =>
      split
      case h_1 e hmd =>
        exact ⟨rfl, rfl, rfl, rfl, rfl, rfl, rfl, [], by simp, by simp, by simp, by simp⟩
      case h_2 b hmd =>
        split
        case isTrue hskip =>
          obtain ⟨h1, h2, h3, h4, h5, h6, h7, Δ, hf, hq, hnd, hmem⟩ := ih s
          exact ⟨h1, h2, h3, h4, h5, h6, h7, Δ, hf, hq, hnd,
            fun u hu => ⟨List.mem_cons_of_mem _ (hmem u hu).1, (hmem u hu).2.1, (hmem u hu).2.2⟩⟩
        case isFalse hskip =>
          obtain ⟨h1, h2, h3, h4, h5, h6, h7, Δ, hf, hq, hnd, hmem⟩ :=
            ih {s with
              frontier := s.frontier ++ [link]
              queued := s.queued ++ [link]}
          push_neg at hin
          refine ⟨h1, h2, h3, h4, h5, h6, h7, link :: Δ, ?_, ?_, ?_, ?_⟩
          · rw [hf]
            simp
          · rw [hq]
            simp
          · refine List.nodup_cons.mpr ⟨?_, hnd⟩
            intro hlk
            exact (hmem link hlk).2.1 (by simp)
          · intro u hu
            rcases List.mem_cons.mp hu with rfl | hu
            · exact ⟨List.mem_cons_self _ _, hin.2, hin.1⟩
            · obtain ⟨hul, huq, huv⟩ := hmem u hu
              refine ⟨List.mem_cons_of_mem _ hul, ?_, huv⟩
              intro hq2
              exact huq (by simp [hq2])

/-- Everything the image-recording loop guarantees: it only appends to the
images log and to `uniqueImages`, in lockstep, recording each previously
unseen canonical source exactly once with the current page URL. -/
theorem recordImages_spec (url : Str) :
    ∀ (imgs : List ImageOut) (s : CrawlState),
    (recordImages url s imgs).frontier = s.frontier ∧
    (recordImages url s imgs).queued = s.queued ∧
    (recordImages url s imgs).visited = s.visited ∧
    (recordImages url s imgs).discovered = s.discovered ∧
    (recordImages url s imgs).successCount = s.successCount ∧
    (recordImages url s imgs).failedCount = s.failedCount ∧
    (recordImages url s imgs).uniqueYoutube = s.uniqueYoutube ∧
    (recordImages url s imgs).logs.pages = s.logs.pages ∧
    (recordImages url s imgs).logs.errors = s.logs.errors ∧
    (recordImages url s imgs).logs.youtube = s.logs.youtube ∧
    ∃ ΔI, (recordImages url s imgs).logs.images = s.logs.images ++ ΔI ∧
      (recordImages url s imgs).uniqueImages =
        s.uniqueImages ++ ΔI.map (fun rec => rec.image.src) ∧
      (ΔI.map (fun rec => rec.image.src)).Nodup ∧
      (∀ rec ∈ ΔI, rec.page_url = url ∧ rec.image.src ∈ imgs.map (fun i => i.src) ∧
        rec.image.src ∉ s.uniqueImages) ∧
      (∀ src ∈ imgs.map (fun i => i.src), src ∉ s.uniqueImages →
        src ∈ ΔI.map (fun rec => rec.image.src)) := by
  intro imgs
  induction imgs with
  | nil =>
    intro s
    exact ⟨rfl, rfl, rfl, rfl, rfl, rfl, rfl, rfl, rfl, rfl, [], by simp [recordImages],
      by simp [recordImages], by simp, by simp, by simp⟩
  | cons img t ih =>
    intro s
    simp only [recordImages]
    split
    case isTrue hseen =>
      obtain ⟨h1, h2, h3, h4, h5, h6, h7, h8, h9, h10, ΔI, hi, hu, hnd, hrec, hcov⟩ := ih s
      refine ⟨h1, h2, h3, h4, h5, h6, h7, h8, h9, h10, ΔI, hi, hu, hnd, ?_, ?_⟩
      · intro rec hr
        obtain ⟨ha, hb, hc⟩ := hrec rec hr
        exact ⟨ha, by simp only [List.map_cons]; exact List.mem_cons_of_mem _ hb, hc⟩
      · intro src hsrc hnot
        simp only [List.map_cons] at hsrc
        rcases List.mem_cons.mp hsrc with rfl | hsrc
        · exact absurd hseen hnot
        · exact hcov src hsrc hnot
    case isFalse hseen =>
      obtain ⟨h1, h2, h3, h4, h5, h6, h7, h8, h9, h10, ΔI, hi, hu, hnd, hrec, hcov⟩ :=
        ih {s with
          uniqueImages := s.uniqueImages ++ [img.src]
          logs := {s.logs with images := s.logs.images ++ [⟨url, img⟩]}}
      refine ⟨h1, h2, h3, h4, h5, h6, h7, h8, h9, h10,
        ImageRecord.mk url img :: ΔI, ?_, ?_, ?_, ?_, ?_⟩
      · rw [hi]; simp
      · rw [hu]; simp
      · simp only [List.map_cons]
        refine List.nodup_cons.mpr ⟨?_, hnd⟩
        intro hmem
        obtain ⟨rec, hr, hsrceq⟩ := List.mem_map.mp hmem
        exact (hrec rec hr).2.2 (by simp [hsrceq])
      · intro rec hr
        rcases List.mem_cons.mp hr with rfl | hr
        · exact ⟨rfl, by simp, hseen⟩
        · obtain ⟨ha, hb, hc⟩ := hrec rec hr
          refine ⟨ha, by simp only [List.map_cons]; exact List.mem_cons_of_mem _ hb, ?_⟩
          intro hmem
          exact hc (by simp [hmem])
      · intro src hsrc hnot
        simp only [List.map_cons]
        by_cases heq : src = img.src
        · exact heq ▸ List.mem_cons_self _ _
        · simp only [List.map_cons] at hsrc
          rcases List.mem_cons.mp hsrc with rfl | hsrc
          · exact absurd rfl heq
          · refine List.mem_cons_of_mem _ (hcov src hsrc ?_)
            simp only [List.mem_append, List.mem_singleton]
            rintro (h | h)
            · exact hnot h
            · exact heq h

/-- The video-link loop touches only the youtube log and `uniqueYoutube`. -/
theorem recordYoutube_spec (url : Str) :
    ∀ (yts : List Str) (s : CrawlState),
    (recordYoutube url s yts).frontier = s.frontier ∧
    (recordYoutube url s yts).queued = s.queued ∧
    (recordYoutube url s yts).visited = s.visited ∧
    (recordYoutube url s yts).discovered = s.discovered ∧
    (recordYoutube url s yts).successCount = s.successCount ∧
    (recordYoutube url s yts).failedCount = s.failedCount ∧
    (recordYoutube url s yts).uniqueImages = s.uniqueImages ∧
    (recordYoutube url s yts).logs.pages = s.logs.pages ∧
    (recordYoutube url s yts).logs.errors = s.logs.errors ∧
    (recordYoutube url s yts).logs.images = s.logs.images := by
  intro yts
  induction yts with
  | nil =>
    intro s
    exact ⟨rfl, rfl, rfl, rfl, rfl, rfl, rfl, rfl, rfl, rfl⟩
  | cons yt t ih =>
    intro s
    simp only [recordYoutube]
    split
    · exact ih s
    · obtain ⟨h1, h2, h3, h4, h5, h6, h7, h8, h9, h10⟩ :=
        ih {s with
          uniqueYoutube := s.uniqueYoutube ++ [yt]
          logs := {s.logs with youtube := s.logs.youtube ++ [⟨url, yt⟩]}}
      exact ⟨h1, h2, h3, h4, h5, h6, h7, h8, h9, h10⟩

/-- The internal links the crawler derives from one successful result (the
structured lists, falling back to HTML scanning when both are empty): the
only links it considers for the frontier. -/
def resultInternalLinks (r : FetchResult) : Except Str (List Str) := do
  let url ← normalize_url r.url
  let links := r.links.getD ⟨none, none⟩
  let int0 ← normalize_links url links.internal
  let ext0 ← normalize_links url links.external
  if int0 = [] ∧ ext0 = [] then
    let p ← extract_links_from_html url (r.html.getD [])
    pure p.1
  else pure int0

/-- The canonical image sources the crawler derives from one successful
result. -/
def resultImageSrcs (r : FetchResult) : Except Str (List Str) := do
  let url ← normalize_url r.url
  let imgs ← normalize_images url ((r.media.getD ⟨none⟩).images)
  pure (imgs.map (fun i => i.src))

/-- Processing a failed fetch that does not raise: exactly one error record
is appended and the only other changes are the two counters. -/
theorem processResult_failure {pfx : Str} {s0 : CrawlState} {r : FetchResult}
    (hf : r.success = false) {s' : CrawlState}
    (h : processResult pfx s0 r = (s', none)) :
    ∃ url, normalize_url r.url = Except.ok url ∧
      s' = {s0 with
        discovered := s0.discovered + 1
        failedCount := s0.failedCount + 1
        logs := {s0.logs with errors := s0.logs.errors ++ [⟨url, r.error_message⟩]}} := by
  unfold processResult at h
  cases hn : normalize_url r.url with
  | error e => rw [hn] at h; cases h
  | ok url =>
    rw [hn, hf] at h
    simp only [Bool.not_false, if_true] at h
    exact ⟨url, rfl, (Prod.mk.injEq .. ▸ h).1.symm⟩

/-- Processing a successful fetch that does not raise: no error record,
exactly one page record, the frontier only grows by links derived from this
result, and the images log and `uniqueImages` grow in lockstep by
previously unseen sources of this result, attributed to this page. -/
theorem processResult_success {pfx : Str} {s0 : CrawlState} {r : FetchResult}
    (hs : r.success = true) {s' : CrawlState}
    (h : processResult pfx s0 r = (s', none)) :
    ∃ url L limg ΔI rec,
      normalize_url r.url = Except.ok url ∧
      resultInternalLinks r = Except.ok L ∧
      resultImageSrcs r = Except.ok limg ∧
      s'.visited = s0.visited ∧
      s'.logs.errors = s0.logs.errors ∧
      s'.logs.pages = s0.logs.pages ++ [rec] ∧
      (∀ u ∈ s'.frontier, u ∈ s0.frontier ∨ u ∈ L) ∧
      s'.logs.images = s0.logs.images ++ ΔI ∧
      s'.uniqueImages = s0.uniqueImages ++ ΔI.map (fun rec2 => rec2.image.src) ∧
      (ΔI.map (fun rec2 => rec2.image.src)).Nodup ∧
      (∀ rec2 ∈ ΔI, rec2.page_url = url ∧ rec2.image.src ∈ limg ∧
        rec2.image.src ∉ s0.uniqueImages) ∧
      (∀ src ∈ limg, src ∉ s0.uniqueImages → src ∈ ΔI.map (fun rec2 => rec2.image.src)) := by
  unfold processResult at h
  cases hn : normalize_url r.url with
  | error e => rw [hn] at h; cases h
  | ok url =>
  rw [hn, hs] at h
  simp only [Bool.not_true, Bool.false_eq_true, if_false] at h
  cases hint : normalize_links url (r.links.getD ⟨none, none⟩).internal with
  | error e => rw [hint] at h; cases h
  | ok int0 =>
  rw [hint] at h
  cases hext : normalize_links url (r.links.getD ⟨none, none⟩).external with
  | error e => rw [hext] at h; cases h
  | ok ext0 =>
  rw [hext] at h
  simp only [] at h
  cases hfb : (if int0 = [] ∧ ext0 = [] then extract_links_from_html url (r.html.getD [])
      else Except.ok (int0, ext0)) with
  | error e => rw [hfb] at h; cases h
  | ok urls =>
  rw [hfb] at h
  simp only [] at h
  cases henq : enqueueLinks pfx
      {s0 with
        discovered := s0.discovered + 1
        successCount := s0.successCount + 1} urls.1 with
  | mk s1 oe1 =>
  cases oe1 with
  | some e => rw [henq] at h; cases h
  | none =>
  rw [henq] at h
  simp only [] at h
  cases himgs : normalize_images url (r.media.getD ⟨none⟩).images with
  | error e => rw [himgs] at h; cases h
  | ok images =>
  rw [himgs] at h
  simp only [] at h
  cases hyt1 : processResult.ext0Youtube urls.2 with
  | error e => rw [hyt1] at h; cases h
  | ok yt1 =>
  rw [hyt1] at h
  simp only [] at h
  cases hyt2 : extract_youtube_from_html (r.html.getD []) with
  | error e => rw [hyt2] at h; cases h
  | ok yt2 =>
  rw [hyt2] at h
  simp only [] at h
  cases hytn : (PyStr.sortedSet (yt1 ++ yt2)).mapM normalize_url with
  | error e => rw [hytn] at h; cases h
  | ok ytNorm =>
  rw [hytn] at h
  simp only [] at h
  have hs' := (Prod.mk.injEq .. ▸ h).1.symm
  obtain ⟨e1, e2, e3, e4, e5, e6, e7, Δ, hf, hq, hΔnd, hΔmem⟩ :=
    enqueueLinks_spec pfx urls.1
      {s0 with
        discovered := s0.discovered + 1
        successCount := s0.successCount + 1}
  rw [henq] at e1 e2 e3 e4 e5 e6 e7 hf hq
  obtain ⟨r1, r2, r3, r4, r5, r6, r7, r8, r9, r10, ΔI, ri, ru, rnd, rrec, rcov⟩ :=
    recordImages_spec url images s1
  obtain ⟨y1, y2, y3, y4, y5, y6, y7, y8, y9, y10⟩ :=
    recordYoutube_spec url (PyStr.sortedSet ytNorm) (recordImages url s1 images)
  refine ⟨url, urls.1, images.map (fun i => i.src), ΔI,
    ⟨url, (r.metadata.getD ⟨none, none⟩).title, (r.metadata.getD ⟨none, none⟩).description,
      r.markdown, r.html, urls.1, urls.2, images, PyStr.sortedSet ytNorm⟩,
    rfl, ?_, ?_, ?_, ?_, ?_, ?_, ?_, ?_, ?_, ?_, ?_⟩
  · -- resultInternalLinks r = .ok urls.1
    unfold resultInternalLinks
    rw [hn]
    simp only [bind, Except.bind, hint, hext]
    by_cases hiff : int0 = [] ∧ ext0 = []
    · rw [if_pos hiff] at hfb ⊢
      rw [hfb]
      rfl
    · rw [if_neg hiff] at hfb ⊢
      obtain rfl : (int0, ext0) = urls := Except.ok.injEq .. ▸ hfb
      rfl
  · -- resultImageSrcs r = .ok (images.map src)
    unfold resultImageSrcs
    rw [hn]
    simp only [bind, Except.bind, himgs]
    rfl
  · -- visited
    rw [hs']
    simp only []
    rw [y3, r3, e1]
  · -- errors
    rw [hs']
    simp only []
    rw [y9, r9, e7]
  · -- pages
    rw [hs']
    simp only []
    rw [y8, r8, e7]
  · -- frontier
    intro u hu
    rw [hs'] at hu
    simp only [] at hu
    rw [y1, r1, hf] at hu
    rcases List.mem_append.mp hu with hu | hu
    · exact Or.inl hu
    · exact Or.inr (hΔmem u hu).1
  · -- images log
    rw [hs']
    simp only []
    rw [y10, ri, e7]
  · -- uniqueImages
    rw [hs']
    simp only []
    rw [y7, ru, e5]
  · -- nodup
    exact rnd
  · -- per-record facts
    intro rec2 hr
    obtain ⟨ha, hb, hc⟩ := rrec rec2 hr
    rw [e5] at hc
    exact ⟨ha, hb, hc⟩
  · -- coverage
    intro src hsrc hnot
    refine rcov src hsrc ?_
    rw [e5]
    exact hnot

/-- The state-evolution contract of result processing, also on the raising
paths (Python keeps the mutations made before an exception): `visited` is
untouched, `frontier` and `queued` grow by one common fresh selection, and
the images log and `uniqueImages` grow in lockstep by fresh sources. -/
def ProcSpec (s0 s' : CrawlState) : Prop :=
  s'.visited = s0.visited ∧
  (∃ Δ, s'.frontier = s0.frontier ++ Δ ∧ s'.queued = s0.queued ++ Δ ∧ Δ.Nodup ∧
    ∀ u ∈ Δ, u ∉ s0.queued ∧ u ∉ s0.visited) ∧
  (∃ ΔI, s'.logs.images = s0.logs.images ++ ΔI ∧
    s'.uniqueImages = s0.uniqueImages ++ ΔI.map (fun rec => rec.image.src) ∧
    (ΔI.map (fun rec => rec.image.src)).Nodup ∧
    ∀ rec ∈ ΔI, rec.image.src ∉ s0.uniqueImages)

theorem ProcSpec.refl {s : CrawlState} : ProcSpec s s :=
  ⟨Eq.refl _, ⟨[], by simp, by simp, by simp, by simp⟩, ⟨[], by simp, by simp, by simp, by simp⟩⟩

theorem ProcSpec.of_same {s0 s' : CrawlState} (h1 : s'.visited = s0.visited)
    (h2 : s'.frontier = s0.frontier) (h3 : s'.queued = s0.queued)
    (h4 : s'.logs.images = s0.logs.images) (h5 : s'.uniqueImages = s0.uniqueImages) :
    ProcSpec s0 s' :=
  ⟨h1, ⟨[], by simp [h2], by simp [h3], by simp, by simp⟩,
    ⟨[], by simp [h4], by simp [h5], by simp, by simp⟩⟩

theorem ProcSpec.trans {a b c : CrawlState} (hab : ProcSpec a b) (hbc : ProcSpec b c) :
    ProcSpec a c := by
  obtain ⟨v1, ⟨Δ1, f1, q1, nd1, m1⟩, ⟨I1, i1, u1, ind1, im1⟩⟩ := hab
  obtain ⟨v2, ⟨Δ2, f2, q2, nd2, m2⟩, ⟨I2, i2, u2, ind2, im2⟩⟩ := hbc
  refine ⟨v2.trans v1, ⟨Δ1 ++ Δ2, ?_, ?_, ?_, ?_⟩, ⟨I1 ++ I2, ?_, ?_, ?_, ?_⟩⟩
  · rw [f2, f1, List.append_assoc]
  · rw [q2, q1, List.append_assoc]
  · refine List.nodup_append.mpr ⟨nd1, nd2, ?_⟩
    intro u hu1 hu2
    exact (m2 u hu2).1 (by rw [q1]; simp [hu1])
  · intro u hu
    rcases List.mem_append.mp hu with hu | hu
    · exact m1 u hu
    · obtain ⟨hq, hv⟩ := m2 u hu
      rw [q1] at hq
      rw [v1] at hv
      exact ⟨fun hc => hq (by simp [hc]), hv⟩
  · rw [i2, i1, List.append_assoc]
  · rw [u2, u1, List.map_append, List.append_assoc]
  · rw [List.map_append]
    refine List.nodup_append.mpr ⟨ind1, ind2, ?_⟩
    intro u hu1 hu2
    obtain ⟨rec, hr, rfl⟩ := List.mem_map.mp hu2
    exact im2 rec hr (by rw [u1]; simp [hu1])
  · intro rec hr
    rcases List.mem_append.mp hr with hr | hr
    · exact im1 rec hr
    · have := im2 rec hr
      rw [u1] at this
      intro hc
      exact this (by simp [hc])

theorem processResult_spec (pfx : Str) (s0 : CrawlState) (r : FetchResult) :
    ProcSpec s0 (processResult pfx s0 r).1 := by
  unfold processResult
  cases hn : normalize_url r.url with
  | error e => exact ProcSpec.of_same rfl rfl rfl rfl rfl
  | ok url =>
  by_cases hs : r.success = true
  · rw [hs]
    simp only [Bool.not_true, Bool.false_eq_true, if_false]
    cases hint : normalize_links url (r.links.getD ⟨none, none⟩).internal with
    | error e => exact ProcSpec.of_same rfl rfl rfl rfl rfl
    | ok int0 =>
    cases hext : normalize_links url (r.links.getD ⟨none, none⟩).external with
    | error e => exact ProcSpec.of_same rfl rfl rfl rfl rfl
    | ok ext0 =>
    simp only []
    cases hfb : (if int0 = [] ∧ ext0 = [] then extract_links_from_html url (r.html.getD [])
        else Except.ok (int0, ext0)) with
    | error e => exact ProcSpec.of_same rfl rfl rfl rfl rfl
    | ok urls =>
    simp only []
    obtain ⟨e1, e2, e3, e4, e5, e6, e7, Δ, hf, hq, hΔnd, hΔmem⟩ :=
      enqueueLinks_spec pfx urls.1
        {s0 with
          discovered := s0.discovered + 1
          successCount := s0.successCount + 1}
    have hspec1 : ProcSpec s0 (enqueueLinks pfx
        {s0 with
          discovered := s0.discovered + 1
          successCount := s0.successCount + 1} urls.1).1 := by
      refine ⟨e1, ⟨Δ, hf, hq, hΔnd, fun u hu => (hΔmem u hu).2⟩,
        ⟨[], by simp [e7], by simp [e5], by simp, by simp⟩⟩
    cases henq : enqueueLinks pfx
        {s0 with
          discovered := s0.discovered + 1
          successCount := s0.successCount + 1} urls.1 with
    | mk s1 oe1 =>
    rw [henq] at hspec1
    cases oe1 with
    | some e => exact hspec1
    | none =>
    simp only []
    cases himgs : normalize_images url (r.media.getD ⟨none⟩).images with
    | error e => exact hspec1
    | ok images =>
    simp only []
    obtain ⟨r1, r2, r3, r4, r5, r6, r7, r8, r9, r10, ΔI, ri, ru, rnd, rrec, rcov⟩ :=
      recordImages_spec url images s1
    have hspec2 : ProcSpec s0 (recordImages url s1 images) :=
      hspec1.trans ⟨r3, ⟨[], by simp [r1], by simp [r2], by simp, by simp⟩,
        ⟨ΔI, ri, ru, rnd, fun rec hr => (rrec rec hr).2.2⟩⟩
    cases hyt1 : processResult.ext0Youtube urls.2 with
    | error e => exact hspec2
    | ok yt1 =>
    simp only []
    cases hyt2 : extract_youtube_from_html (r.html.getD []) with
    | error e => exact hspec2
    | ok yt2 =>
    simp only []
    cases hytn : (PyStr.sortedSet (yt1 ++ yt2)).mapM normalize_url with
    | error e => exact hspec2
    | ok ytNorm =>
    simp only []
    obtain ⟨y1, y2, y3, y4, y5, y6, y7, y8, y9, y10⟩ :=
      recordYoutube_spec url (PyStr.sortedSet ytNorm) (recordImages url s1 images)
    refine hspec2.trans ⟨y3, ⟨[], by simp [y1], by simp [y2], by simp, by simp⟩,
      ⟨[], by simp [y10], by simp [y7], by simp, by simp⟩⟩
  · rw [Bool.not_eq_true] at hs
    rw [hs]
    simp only [Bool.not_false, if_true]
    exact ProcSpec.of_same rfl rfl rfl rfl rfl

theorem processResults_spec (pfx : Str) :
    ∀ (rs : List FetchResult) (s0 : CrawlState),
    ProcSpec s0 (processResults pfx s0 rs).1 := by
  intro rs
  induction rs with
  | nil => intro s0; exact ProcSpec.refl
  | cons r t ih =>
    intro s0
    simp only [processResults]
    cases hp : processResult pfx s0 r with
    | mk sm oe =>
    have h1 : ProcSpec s0 sm := by
      have := processResult_spec pfx s0 r
      rw [hp] at this
      exact this
    cases oe with
    | none => exact h1.trans (ih sm)
    | some e => exact h1

/-- The master invariant of the traversal state. -/
def Inv (s : CrawlState) : Prop :=
  s.frontier.Nodup ∧
  (∀ u ∈ s.frontier, u ∉ s.visited) ∧
  (∀ u, u ∈ s.queued ↔ u ∈ s.frontier ∨ u ∈ s.visited) ∧
  (∀ u, u ∈ s.uniqueImages ↔ u ∈ s.logs.images.map (fun rec => rec.image.src)) ∧
  (s.logs.images.map (fun rec => rec.image.src)).Nodup

theorem Inv.of_procSpec {s0 s' : CrawlState} (hi : Inv s0) (hp : ProcSpec s0 s') :
    Inv s' := by
  obtain ⟨nd, fv, qiff, imiff, imnd⟩ := hi
  obtain ⟨v1, ⟨Δ, f1, q1, nd1, m1⟩, ⟨I1, i1, u1, ind1, im1⟩⟩ := hp
  refine ⟨?_, ?_, ?_, ?_, ?_⟩
  · rw [f1]
    refine List.nodup_append.mpr ⟨nd, nd1, ?_⟩
    intro u hu1 hu2
    exact (m1 u hu2).1 ((qiff u).mpr (Or.inl hu1))
  · intro u hu
    rw [f1] at hu
    rw [v1]
    rcases List.mem_append.mp hu with hu | hu
    · exact fv u hu
    · exact (m1 u hu).2
  · intro u
    rw [q1, f1, v1]
    simp only [List.mem_append]
    constructor
    · rintro (hq | hΔ)
      · rcases (qiff u).mp hq with hf | hv
        · exact Or.inl (Or.inl hf)
        · exact Or.inr hv
      · exact Or.inl (Or.inr hΔ)
    · rintro ((hf | hΔ) | hv)
      · exact Or.inl ((qiff u).mpr (Or.inl hf))
      · exact Or.inr hΔ
      · exact Or.inl ((qiff u).mpr (Or.inr hv))
  · intro u
    rw [u1, i1]
    simp only [List.map_append, List.mem_append]
    constructor
    · rintro (h | h)
      · exact Or.inl ((imiff u).mp h)
      · exact Or.inr h
    · rintro (h | h)
      · exact Or.inl ((imiff u).mpr h)
      · exact Or.inr h
  · rw [i1, List.map_append]
    refine List.nodup_append.mpr ⟨imnd, ind1, ?_⟩
    intro u hu1 hu2
    obtain ⟨rec, hr, rfl⟩ := List.mem_map.mp hu2
    exact im1 rec hr ((imiff _).mpr hu1)

theorem nodup_take_drop_disjoint {l : List Str} (nd : l.Nodup) {n : Nat} {u : Str}
    (h1 : u ∈ l.take n) (h2 : u ∈ l.drop n) : False := by
  rw [← List.take_append_drop n l] at nd
  exact (List.nodup_append.mp nd).2.2 h1 h2

/-- The per-iteration facts recorded in the trace: every dispatched batch
is duplicate-free, marked visited at dispatch, disjoint from the frontier,
and the dispatch-time state satisfies the frontier/queued/visited
relations. -/
def IterOk (il : IterLog) : Prop :=
  il.batch.Nodup ∧
  (∀ u ∈ il.batch, u ∈ il.atDispatch.visited) ∧
  (∀ u ∈ il.batch, u ∉ il.atDispatch.frontier) ∧
  il.atDispatch.frontier.Nodup ∧
  (∀ u ∈ il.atDispatch.frontier, u ∉ il.atDispatch.visited) ∧
  (∀ u, u ∈ il.atDispatch.queued ↔ u ∈ il.atDispatch.frontier ∨ u ∈ il.atDispatch.visited)

/-- The loop-level induction: from an invariant state, the final state is
invariant, every trace entry satisfies `IterOk`, and the concatenation of
all dispatched batches is duplicate-free and fresh. -/
theorem runLoop_spec (pfx : Str) (lim : Option Nat) (maxC : Nat)
    (oracle : Str → FetchResult) :
    ∀ (fuel : Nat) (s : CrawlState), Inv s →
    Inv (runLoop pfx lim maxC oracle fuel s).1 ∧
    (∀ il ∈ (runLoop pfx lim maxC oracle fuel s).2.1, IterOk il) ∧
    (((runLoop pfx lim maxC oracle fuel s).2.1.map (fun il => il.batch)).flatten.Nodup) ∧
    (∀ u ∈ ((runLoop pfx lim maxC oracle fuel s).2.1.map (fun il => il.batch)).flatten,
      u ∉ s.visited) := by
  intro fuel
  induction fuel with
  | zero =>
    intro s hinv
    exact ⟨hinv, by simp [runLoop], by simp [runLoop], by simp [runLoop]⟩
  | succ fuel ih =>
    intro s hinv
    obtain ⟨ndf, hfv, hq, himg, himgnd⟩ := hinv
    simp only [runLoop]
    split
    case isFalse hcond =>
      exact ⟨⟨ndf, hfv, hq, himg, himgnd⟩, by simp, by simp, by simp⟩
    case isTrue hcond =>
      obtain ⟨Δ, n, heq, hΔnd, hΔfresh, hΔtake, hpop⟩ :=
        buildBatch_spec maxC lim s.discovered s.frontier s.visited []
      rw [heq]
      simp only [List.nil_append]
      have hinv1 : Inv {s with frontier := s.frontier.drop n, visited := s.visited ++ Δ} := by
        refine ⟨?_, ?_, ?_, himg, himgnd⟩
        · exact ndf.sublist (List.drop_sublist n s.frontier)
        · intro u hu
          simp only [List.mem_append]
          rintro (hv | hΔ)
          · exact hfv u (List.mem_of_mem_drop hu) hv
          · exact nodup_take_drop_disjoint ndf (hΔtake u hΔ) hu
        · intro u
          simp only [List.mem_append]
          constructor
          · intro huq
            rcases (hq u).mp huq with hf | hv
            · conv at hf => rw [← List.take_append_drop n s.frontier]
              rcases List.mem_append.mp hf with hf | hf
              · rcases hpop u hf with h | h
                · exact Or.inr (Or.inl h)
                · exact Or.inr (Or.inr h)
              · exact Or.inl hf
            · exact Or.inr (Or.inl hv)
          · rintro (hf | hv | hΔ)
            · exact (hq u).mpr (Or.inl (List.mem_of_mem_drop hf))
            · exact (hq u).mpr (Or.inr hv)
            · exact (hq u).mpr (Or.inl (List.mem_of_mem_take (hΔtake u hΔ)))
      by_cases hbe : Δ = ([] : List Str)
      · rw [if_pos hbe]
        subst hbe
        have := ih {s with frontier := s.frontier.drop n, visited := s.visited ++ []} (by
          simpa using hinv1)
        refine ⟨this.1, this.2.1, this.2.2.1, ?_⟩
        intro u hu
        have := this.2.2.2 u hu
        simpa using this
      · rw [if_neg hbe]
        have hPS := processResults_spec pfx
          ((Δ.map oracle))
          {s with frontier := s.frontier.drop n, visited := s.visited ++ Δ}
        cases hpr : processResults pfx
            {s with frontier := s.frontier.drop n, visited := s.visited ++ Δ}
            (Δ.map oracle) with
        | mk s2 oe =>
        rw [hpr] at hPS
        have hinv2 : Inv s2 := hinv1.of_procSpec hPS
        have hs2v : s2.visited = s.visited ++ Δ := hPS.1
        have hIOk : IterOk ⟨Δ, {s with frontier := s.frontier.drop n, visited := s.visited ++ Δ}, s2⟩ := by
          refine ⟨hΔnd, ?_, ?_, hinv1.1, hinv1.2.1, hinv1.2.2.1⟩
          · intro u hu
            simp only [List.mem_append]
            exact Or.inr hu
          · intro u hu hud
            exact nodup_take_drop_disjoint ndf (hΔtake u hu) hud
        cases oe with
        | some e =>
          simp only []
          refine ⟨hinv2, ?_, ?_, ?_⟩
          · intro il hil
            rcases List.mem_singleton.mp hil with rfl
            exact hIOk
          · simp [hΔnd]
          · intro u hu
            simp only [List.map_cons, List.map_nil, List.flatten_cons,
              List.flatten_nil, List.append_nil] at hu
            exact hΔfresh u hu
        | none =>
          simp only []
          obtain ⟨ihInv, ihIter, ihNd, ihFresh⟩ := ih s2 hinv2
          refine ⟨ihInv, ?_, ?_, ?_⟩
          · intro il hil
            rcases List.mem_cons.mp hil with rfl | hil
            · exact hIOk
            · exact ihIter il hil
          · simp only [List.map_cons, List.flatten_cons]
            refine List.nodup_append.mpr ⟨hΔnd, ihNd, ?_⟩
            intro u hu1 hu2
            exact ihFresh u hu2 (by rw [hs2v]; simp [hu1])
          · intro u hu
            simp only [List.map_cons, List.flatten_cons, List.mem_append] at hu
            rcases hu with hu | hu
            · exact hΔfresh u hu
            · intro hv
              exact ihFresh u hu (by rw [hs2v]; simp [hv])

end Crawler

namespace Crawler

/-- The invariant holds at the start of every run. -/
theorem Inv_start (s0 : Str) : Inv ⟨[s0], [s0], [], 0, 0, 0, [], [], initLogs⟩ := by
  refine ⟨List.nodup_singleton s0, ?_, ?_, ?_, ?_⟩
  · intro u _ hv
    simp at hv
  · intro u
    simp [initLogs]
  · intro u
    simp [initLogs]
  · simp [initLogs]

/-- Every complete run satisfies the loop-level facts. -/
theorem crawl_spec (cfg : CrawlConfig) (fs : Str → Option JsonVal)
    (oracle : Str → FetchResult) (fuel : Nat) :
    Inv (crawl_moodle_docs cfg fs oracle fuel).final ∧
    (∀ il ∈ (crawl_moodle_docs cfg fs oracle fuel).iters, IterOk il) ∧
    (((crawl_moodle_docs cfg fs oracle fuel).iters.map (fun il => il.batch)).flatten.Nodup) := by
  unfold crawl_moodle_docs
  cases load_cookie_config cfg.cookies_file fs with
  | error e =>
    refine ⟨?_, by simp, by simp⟩
    exact ⟨by simp [emptyState], by simp [emptyState], by simp [emptyState, initLogs],
      by simp [emptyState, initLogs], by simp [emptyState, initLogs]⟩
  | ok c =>
    cases normalize_url cfg.start_url with
    | error e =>
      refine ⟨?_, by simp, by simp⟩
      exact ⟨by simp [emptyState], by simp [emptyState], by simp [emptyState, initLogs],
        by simp [emptyState, initLogs], by simp [emptyState, initLogs]⟩
    | ok s0 =>
      simp only []
      obtain ⟨hInv, hIter, hNd, _⟩ :=
        runLoop_spec cfg.docsPfx (pageLimit cfg) cfg.max_concurrent oracle fuel
          ⟨[s0], [s0], [], 0, 0, 0, [], [], initLogs⟩ (Inv_start s0)
      exact ⟨hInv, hIter, hNd⟩

end Crawler

/-! ## Claim C1: no URL is dispatched twice -/

/-- Claim C1: across all batches dispatched during a crawl run, each
canonical URL appears in at most one batch and at most once within it —
the concatenation of all dispatched batches has no duplicate. -/
theorem claim_C1 (cfg : Crawler.CrawlConfig) (fs : Str → Option Crawler.JsonVal)
    (oracle : Str → Crawler.FetchResult) (fuel : Nat) :
    (((Crawler.crawl_moodle_docs cfg fs oracle fuel).iters.map
      (fun il => il.batch)).flatten).Nodup :=
  (Crawler.crawl_spec cfg fs oracle fuel).2.2

/-- Claim C3, amended: the three memberships are not mutually exclusive —
the batch under dispatch is always contained in `visited` (in-flight URLs
are marked visited at selection time) and the `queued` set is the set of
ever-enqueued URLs, equal to frontier ∪ visited.  What does hold at every
dispatch point: the frontier is duplicate-free and disjoint from both the
batch and the visited set, so a URL is pending in exactly one of
{frontier, visited}, and the batch lives inside visited. -/
theorem claim_C3_amended (cfg : Crawler.CrawlConfig) (fs : Str → Option Crawler.JsonVal)
    (oracle : Str → Crawler.FetchResult) (fuel : Nat) (il : Crawler.IterLog)
    (hil : il ∈ (Crawler.crawl_moodle_docs cfg fs oracle fuel).iters) :
    il.batch.Nodup ∧
    (∀ u ∈ il.batch, u ∈ il.atDispatch.visited) ∧
    (∀ u ∈ il.batch, u ∉ il.atDispatch.frontier) ∧
    il.atDispatch.frontier.Nodup ∧
    (∀ u ∈ il.atDispatch.frontier, u ∉ il.atDispatch.visited) ∧
    (∀ u, u ∈ il.atDispatch.queued ↔
      u ∈ il.atDispatch.frontier ∨ u ∈ il.atDispatch.visited) :=
  (Crawler.crawl_spec cfg fs oracle fuel).2.1 il hil

/-- Witness for the amended claim C3, at the first iteration of the
concrete one-URL crawl used for the counterexample. -/
theorem claim_C3_witness :
    let il := c3Out.iters.headD ⟨[], Crawler.emptyState, Crawler.emptyState⟩
    il.batch.Nodup ∧
    (∀ u ∈ il.batch, u ∈ il.atDispatch.visited) ∧
    (∀ u ∈ il.batch, u ∉ il.atDispatch.frontier) ∧
    il.atDispatch.frontier.Nodup ∧
    (∀ u ∈ il.atDispatch.frontier, u ∉ il.atDispatch.visited) ∧
    (∀ u, u ∈ il.atDispatch.queued ↔
      u ∈ il.atDispatch.frontier ∨ u ∈ il.atDispatch.visited) :=
  claim_C3_amended c3Cfg (fun _ => none) c3Oracle 2
    (c3Out.iters.headD ⟨[], Crawler.emptyState, Crawler.emptyState⟩) (by decide)

/-! ## Claim C8: global image dedup and first-page attribution -/

namespace Crawler

/-- In a list of image records with pairwise distinct sources, filtering by
one present source yields exactly one record. -/
theorem filter_single_of_nodup :
    ∀ (ΔI : List ImageRecord) (src : Str),
    (ΔI.map (fun rec => rec.image.src)).Nodup →
    src ∈ ΔI.map (fun rec => rec.image.src) →
    ∃ rec, ΔI.filter (fun rec => rec.image.src == src) = [rec] ∧
      rec.image.src = src ∧ rec ∈ ΔI := by
  intro ΔI
  induction ΔI with
  | nil => intro src _ h; simp at h
  | cons rec0 t ih =>
    intro src hnd hmem
    simp only [List.map_cons, List.nodup_cons] at hnd
    by_cases heq : rec0.image.src = src
    · refine ⟨rec0, ?_, heq, List.mem_cons_self _ _⟩
      rw [List.filter_cons_of_pos (by simp [heq])]
      have ht : t.filter (fun rec => rec.image.src == src) = [] := by
        rw [List.filter_eq_nil_iff]
        intro a ha
        simp only [beq_iff_eq]
        intro hc
        exact hnd.1 (heq ▸ hc ▸ List.mem_map_of_mem (fun rec => rec.image.src) ha)
      rw [ht]
    · rw [List.map_cons, List.mem_cons] at hmem
      rcases hmem with hmem | hmem
      · exact absurd hmem.symm heq
      · obtain ⟨rec, hfil, hsrc, hm⟩ := ih src hnd.2 hmem
        refine ⟨rec, ?_, hsrc, List.mem_cons_of_mem _ hm⟩
        rw [List.filter_cons_of_neg (by simp [heq]), hfil]

/-- A source absent from a record list filters to nothing. -/
theorem filter_none_of_not_mem {ΔI : List ImageRecord} {src : Str}
    (h : src ∉ ΔI.map (fun rec => rec.image.src)) :
    ΔI.filter (fun rec => rec.image.src == src) = [] := by
  rw [List.filter_eq_nil_iff]
  intro a ha
  simp only [beq_iff_eq]
  intro hc
  exact h (hc ▸ List.mem_map_of_mem (fun rec => rec.image.src) ha)

end Crawler

/-- Claim C8: image records are globally deduplicated by canonical source
URL.  First, over any complete run the images log never records the same
canonical source twice.  Second, when a batch processes two successful
pages that both reference the same canonical image source, new to the
crawl, the images log gains exactly one record for that source and its
`page_url` is the first-processed page. -/
theorem claim_C8 :
    (∀ (cfg : Crawler.CrawlConfig) (fs : Str → Option Crawler.JsonVal)
      (oracle : Str → Crawler.FetchResult) (fuel : Nat),
      (((Crawler.crawl_moodle_docs cfg fs oracle fuel).final.logs.images.map
        (fun rec => rec.image.src))).Nodup) ∧
    (∀ (pfx : Str) (s : Crawler.CrawlState) (r1 r2 : Crawler.FetchResult)
      (s' : Crawler.CrawlState) (src : Str) (l1 l2 : List Str),
      r1.success = true → r2.success = true →
      Crawler.resultImageSrcs r1 = Except.ok l1 → src ∈ l1 →
      Crawler.resultImageSrcs r2 = Except.ok l2 → src ∈ l2 →
      src ∉ s.uniqueImages →
      s.logs.images.filter (fun rec => rec.image.src == src) = [] →
      Crawler.processResults pfx s [r1, r2] = (s', none) →
      ∃ u1, Crawler.normalize_url r1.url = Except.ok u1 ∧
        (s'.logs.images.filter (fun rec => rec.image.src == src)).map
          (fun rec => rec.page_url) = [u1]) := by
  constructor
  · intro cfg fs oracle fuel
    exact (Crawler.crawl_spec cfg fs oracle fuel).1.2.2.2.2
  · intro pfx s r1 r2 s' src l1 l2 h1 h2 hl1 hs1 hl2 hs2 hnew hzero hproc
    simp only [Crawler.processResults] at hproc
    cases hp1 : Crawler.processResult pfx s r1 with
    | mk sA oe1 =>
    rw [hp1] at hproc
    cases oe1 with
    | some e => cases hproc
    | none =>
    simp only [Crawler.processResults] at hproc
    cases hp2 : Crawler.processResult pfx sA r2 with
    | mk sB oe2 =>
    rw [hp2] at hproc
    cases oe2 with
    | some e => cases hproc
    | none =>
    obtain ⟨rfl, -⟩ := Prod.mk.injEq .. ▸ hproc
    obtain ⟨u1, L1, limg1, ΔI1, rec1, hn1, -, hml1, -, -, -, -, hi1, hu1, hnd1, hrec1, hcov1⟩ :=
      Crawler.processResult_success h1 hp1
    obtain ⟨u2, L2, limg2, ΔI2, rec2, hn2, -, hml2, -, -, -, -, hi2, hu2, hnd2, hrec2, hcov2⟩ :=
      Crawler.processResult_success h2 hp2
    obtain rfl : limg1 = l1 := by
      rw [hml1] at hl1
      exact (Except.ok.injEq .. ▸ hl1)
    obtain rfl : limg2 = l2 := by
      rw [hml2] at hl2
      exact (Except.ok.injEq .. ▸ hl2)
    refine ⟨u1, hn1, ?_⟩
    have hsrc1 : src ∈ ΔI1.map (fun rec => rec.image.src) := hcov1 src hs1 hnew
    obtain ⟨rec, hfil, hrsrc, hrmem⟩ := Crawler.filter_single_of_nodup ΔI1 src hnd1 hsrc1
    have hsrc2 : src ∉ ΔI2.map (fun rec => rec.image.src) := by
      intro hc
      obtain ⟨rec', hr', hsrceq⟩ := List.mem_map.mp hc
      refine (hrec2 rec' hr').2.2 ?_
      rw [hu1, hsrceq]
      simp [hsrc1]
    rw [hi2, hi1, List.append_assoc, List.filter_append, List.filter_append]
    rw [hzero, hfil, Crawler.filter_none_of_not_mem hsrc2]
    simp only [List.nil_append, List.append_nil, List.map_cons, List.map_nil]
    rw [(hrec1 rec hrmem).1]

/-- Witness for the attribution part of claim C8, at a concrete batch of
two successful pages sharing one image. -/
def c8Page1 : Crawler.FetchResult :=
  { success := true, url := str "https://docs.moodle.org/403/en/P1", error_message := none
    links := none
    media := some ⟨some [.strImg (str "/pix/shared.png")]⟩
    metadata := none, markdown := none, html := none }

def c8Page2 : Crawler.FetchResult :=
  { success := true, url := str "https://docs.moodle.org/403/en/P2", error_message := none
    links := none
    media := some ⟨some [.strImg (str "/pix/shared.png")]⟩
    metadata := none, markdown := none, html := none }

theorem claim_C8_witness :
    ∃ u1, Crawler.normalize_url c8Page1.url = Except.ok u1 ∧
      (((Crawler.processResults (str "/403/en/") Crawler.emptyState
        [c8Page1, c8Page2]).1.logs.images.filter
          (fun rec => rec.image.src == str "https://docs.moodle.org/pix/shared.png")).map
        (fun rec => rec.page_url) = [u1]) :=
  claim_C8.2 (str "/403/en/") Crawler.emptyState c8Page1 c8Page2
    (Crawler.processResults (str "/403/en/") Crawler.emptyState [c8Page1, c8Page2]).1
    (str "https://docs.moodle.org/pix/shared.png")
    [str "https://docs.moodle.org/pix/shared.png"]
    [str "https://docs.moodle.org/pix/shared.png"]
    rfl rfl (by decide) (by decide) (by decide) (by decide) (by decide) (by decide)
    (by decide)

/-! ## Claim C7: mixed-batch outcome -/

/-- Claim C7: a batch with exactly one failing and one succeeding fetch
(in either order) appends exactly one record to the errors log and exactly
one record to the pages log, and the frontier grows only by links derived
from the succeeding result. -/
theorem claim_C7 (pfx : Str) (s : Crawler.CrawlState) (r1 r2 : Crawler.FetchResult)
    (rs : List Crawler.FetchResult) (s' : Crawler.CrawlState)
    (hf : r1.success = false) (ht : r2.success = true)
    (hrs : rs = [r1, r2] ∨ rs = [r2, r1])
    (hp : Crawler.processResults pfx s rs = (s', none)) :
    s'.logs.errors.length = s.logs.errors.length + 1 ∧
    s'.logs.pages.length = s.logs.pages.length + 1 ∧
    (∀ u ∈ s'.frontier, u ∈ s.frontier ∨
      ∃ L, Crawler.resultInternalLinks r2 = Except.ok L ∧ u ∈ L) := by
  rcases hrs with rfl | rfl
  · simp only [Crawler.processResults] at hp
    cases hp1 : Crawler.processResult pfx s r1 with
    | mk sA oe1 =>
    rw [hp1] at hp
    cases oe1 with
    | some e => cases hp
    | none =>
    simp only [Crawler.processResults] at hp
    cases hp2 : Crawler.processResult pfx sA r2 with
    | mk sB oe2 =>
    rw [hp2] at hp
    cases oe2 with
    | some e => cases hp
    | none =>
    obtain ⟨rfl, -⟩ := Prod.mk.injEq .. ▸ hp
    obtain ⟨u1, hn1, hsA⟩ := Crawler.processResult_failure hf hp1
    obtain ⟨u2, L2, limg2, ΔI2, rec2, hn2, hL2, -, -, herr2, hpg2, hfr2, -, -, -, -, -⟩ :=
      Crawler.processResult_success ht hp2
    subst hsA
    refine ⟨?_, ?_, ?_⟩
    · rw [herr2]
      simp
    · rw [hpg2]
      simp
    · intro u hu
      rcases hfr2 u hu with hu | hu
      · exact Or.inl hu
      · exact Or.inr ⟨L2, hL2, hu⟩
  · simp only [Crawler.processResults] at hp
    cases hp2 : Crawler.processResult pfx s r2 with
    | mk sA oe2 =>
    rw [hp2] at hp
    cases oe2 with
    | some e => cases hp
    | none =>
    simp only [Crawler.processResults] at hp
    cases hp1 : Crawler.processResult pfx sA r1 with
    | mk sB oe1 =>
    rw [hp1] at hp
    cases oe1 with
    | some e => cases hp
    | none =>
    obtain ⟨rfl, -⟩ := Prod.mk.injEq .. ▸ hp
    obtain ⟨u2, L2, limg2, ΔI2, rec2, hn2, hL2, -, -, herr2, hpg2, hfr2, -, -, -, -, -⟩ :=
      Crawler.processResult_success ht hp2
    obtain ⟨u1, hn1, hsB⟩ := Crawler.processResult_failure hf hp1
    subst hsB
    refine ⟨?_, ?_, ?_⟩
    · simp only []
      rw [herr2]
      simp
    · simp only []
      rw [hpg2]
      simp
    · intro u hu
      simp only [] at hu
      rcases hfr2 u hu with hu | hu
      · exact Or.inl hu
      · exact Or.inr ⟨L2, hL2, hu⟩

/-- Witness for claim C7: one failing and one succeeding fetch, where the
succeeding page carries one in-scope link that is enqueued. -/
def c7Fail : Crawler.FetchResult :=
  { success := false, url := str "https://docs.moodle.org/403/en/Bad", error_message := some (str "boom")
    links := none, media := none, metadata := none, markdown := none, html := none }

def c7Ok : Crawler.FetchResult :=
  { success := true, url := str "https://docs.moodle.org/403/en/Good", error_message := none
    links := some ⟨some [.strItem (str "Next")], some []⟩
    media := none, metadata := none, markdown := none, html := none }

theorem claim_C7_witness :
    (Crawler.processResults (str "/403/en/") Crawler.emptyState
      [c7Fail, c7Ok]).1.logs.errors.length = Crawler.emptyState.logs.errors.length + 1 ∧
    (Crawler.processResults (str "/403/en/") Crawler.emptyState
      [c7Fail, c7Ok]).1.logs.pages.length = Crawler.emptyState.logs.pages.length + 1 ∧
    (∀ u ∈ (Crawler.processResults (str "/403/en/") Crawler.emptyState
        [c7Fail, c7Ok]).1.frontier,
      u ∈ Crawler.emptyState.frontier ∨
        ∃ L, Crawler.resultInternalLinks c7Ok = Except.ok L ∧ u ∈ L) :=
  claim_C7 (str "/403/en/") Crawler.emptyState c7Fail c7Ok [c7Fail, c7Ok]
    (Crawler.processResults (str "/403/en/") Crawler.emptyState [c7Fail, c7Ok]).1
    rfl rfl (Or.inl rfl) (by decide)

/-! ## Claim C2, part 1: `parse_qsl` inverts `urlencode` -/

namespace PyStr

end PyStr

namespace PyStr

end PyStr

namespace PyStr

end PyStr

namespace PyStr

end PyStr

namespace PyStr

/-- The characters `quote_plus` can ever emit with `safe=''`. -/
def encGood (c : Char) : Bool :=
  isAsciiAlpha c || isAsciiDigit c || c = '_' || c = '.' || c = '-' || c = '~' ||
    c = '+' || c = '%'

theorem encGood_ne {c x : Char} (hc : encGood c = true) (hx : encGood x = false) :
    c ≠ x := by
  rintro rfl
  rw [hc] at hx
  exact Bool.noConfusion hx

end PyStr

namespace PyStr

end PyStr

/-! ## Claim C2, part 2: reparsing the rebuilt URL -/

namespace PyStr

theorem toNat_inj_eq {c d : Char} (h : c.toNat = d.toNat) : c = d := by
  have := Char.ofNat_toNat c
  rw [h, Char.ofNat_toNat] at this
  exact this.symm

end PyStr

namespace PyStr

end PyStr

namespace PyStr

end PyStr

namespace UrlLib

end UrlLib

namespace PyStr

end PyStr

namespace UrlLib

open PyStr

end UrlLib

namespace UrlLib

open PyStr

end UrlLib

namespace UrlLib

open PyStr

theorem contains_false_of {s : Str} {c : Char} (h : c ∉ s) : s.contains c = false :=
  Bool.eq_false_iff.mpr (fun hc => h (by simpa using hc))

end UrlLib

namespace UrlLib

open PyStr

end UrlLib

namespace Crawler

open PyStr UrlLib

end Crawler

namespace PyStr

theorem urlencode_cons_ne_nil (kv : Str × Str) (rest : List (Str × Str)) :
    urlencode (kv :: rest) ≠ [] := by
  intro he
  unfold urlencode at he
  rw [List.map_cons] at he
  cases hm : List.map (fun kv => quotePlus kv.1 ++ '=' :: quotePlus kv.2) rest with
  | nil =>
    rw [hm, show List.intercalate ['&'] [quotePlus kv.1 ++ '=' :: quotePlus kv.2] =
        quotePlus kv.1 ++ '=' :: quotePlus kv.2 by
      simp [List.intercalate, List.intersperse]] at he
    exact absurd he (by simp)
  | cons x xs =>
    rw [hm, show List.intercalate ['&']
          ((quotePlus kv.1 ++ '=' :: quotePlus kv.2) :: x :: xs) =
        (quotePlus kv.1 ++ '=' :: quotePlus kv.2) ++ '&' ::
          List.intercalate ['&'] (x :: xs) by
      simp [List.intercalate, List.intersperse]] at he
    exact absurd he (by simp)

end PyStr

namespace UrlLib

open PyStr

end UrlLib

namespace PyStr

end PyStr

namespace UrlLib

open PyStr

end UrlLib

namespace PyStr

end PyStr

namespace Crawler

open PyStr UrlLib

set_option maxHeartbeats 3200000

end Crawler

